import Mathlib

/-!
Verification development for detex-rs, a Rust port of opendetex: a lexical
state machine that strips TeX/LaTeX markup from a character stream.

The definitions below are a shallow embedding of the Rust sources:
  * `src/config.rs`      — `Options`, `MAX_FILE_STACK`, `DEFAULT_ENV`
  * `src/file_handler.rs`— `CharSource` (buffer, pushback, line tracking),
                           `in_include_list`
  * `src/lexer.rs`       — the `Detex` state machine and all of its
                           `process_*` state consumers

Modelling conventions:
  * Rust `usize` values are modelled as `Nat`.  `saturating_sub(1)` is
    exactly `Nat` subtraction.  The one place the source deliberately
    wraps (`wrapping_sub` in `process_la_macro2`, plus the `+= 1`
    immediately after it, which wraps in release builds) is modelled
    with explicit arithmetic modulo `2 ^ 64`.  Ordinary `+= 1`
    increments are modelled as exact `Nat` increments: they can differ
    from machine arithmetic only beyond `2 ^ 64` consumed characters.
  * `footnote_level: i32` is an `Int`; the `usize as i32` cast is the
    explicit two's-complement truncation `i32cast`.
  * The output sink `W: Write` is a `List Char` accumulator; the
    `eprintln!` diagnostic stream is a `List String` accumulator.
  * File I/O (`tex_open`) is an oracle `String → Option String` mapping
    a file name to its contents; the search-path logic operates on the
    real file system and is delegated to the oracle (spec §6 treats file
    resolution as an external collaborator).
  * The Rust `Vec` pushback stack and the `Vec` file stack are `List`s
    whose *head* is the `Vec`'s last element (the top of the stack).
  * Loops are structural recursions on an explicit fuel argument that is
    always instantiated with the number of characters still available
    (`sourceRem`); every loop iteration consumes at least one character,
    so the fueled function computes exactly what the Rust loop computes.
-/

/-- Number of values of `usize` (the Rust target is 64-bit). -/
def usizeMod : Nat := 2 ^ 64

/-- Two's-complement truncation of a `usize` to `i32`, i.e. Rust's
`as i32` cast. -/
def i32cast (n : Nat) : Int :=
  let low : Nat := n % 2 ^ 32
  if low < 2 ^ 31 then (low : Int) else (low : Int) - 2 ^ 32

/-- Rust `char::is_whitespace`: the Unicode `White_Space` property. -/
def rustIsWhitespace (c : Char) : Bool :=
  let n := c.toNat
  (9 ≤ n && n ≤ 13) || n == 32 || n == 0x85 || n == 0xA0 || n == 0x1680 ||
  (0x2000 ≤ n && n ≤ 0x200A) || n == 0x2028 || n == 0x2029 ||
  n == 0x202F || n == 0x205F || n == 0x3000

/-- Rust `char::is_ascii_alphabetic`. -/
def rustIsAsciiAlpha (c : Char) : Bool :=
  (65 ≤ c.toNat && c.toNat ≤ 90) || (97 ≤ c.toNat && c.toNat ≤ 122)

/-- Rust `char::is_ascii_digit`. -/
def rustIsAsciiDigit (c : Char) : Bool :=
  48 ≤ c.toNat && c.toNat ≤ 57

/-- Rust `char::is_ascii_alphanumeric`. -/
def rustIsAsciiAlnum (c : Char) : Bool :=
  rustIsAsciiAlpha c || rustIsAsciiDigit c

/-- Characters accepted by `Detex::read_command_name`: ASCII letters and `@`. -/
def isCmdChar (c : Char) : Bool :=
  rustIsAsciiAlpha c || c == '@'

/-- UTF-8 byte length of a character sequence: Rust `String::len` of the
string holding these characters. -/
def utf8Len (l : List Char) : Nat := (l.map Char.utf8Size).sum

/-- `file_handler.rs`: `CharSource` — a buffered character source with
pushback and line tracking.  `pushback`'s head is the most recently
pushed character (the `Vec`'s last element). -/
structure CharSource where
  buffer : List Char
  pos : Nat
  pushback : List Char
  line : Nat
  at_line_start : Bool
deriving DecidableEq, Repr

namespace CharSource

/-- `CharSource::new`. -/
def new (content : String) : CharSource :=
  { buffer := content.data, pos := 0, pushback := [], line := 1, at_line_start := true }

/-- `CharSource::peek`: pushback top first, then the buffer at `pos`. -/
def peek (s : CharSource) : Option Char :=
  match s.pushback with
  | c :: _ => some c
  | [] => s.buffer.get? s.pos

/-- Line accounting shared by the two branches of `CharSource::next`. -/
def applyLine (c : Char) (s : CharSource) : CharSource :=
  if c = '\n' then { s with line := s.line + 1, at_line_start := true }
  else { s with at_line_start := false }

/-- `CharSource::next`: consume the pushback top, else the buffer at
`pos`; a consumed newline bumps `line` and sets `at_line_start`. -/
def next (s : CharSource) : Option Char × CharSource :=
  match s.pushback with
  | c :: rest => (some c, applyLine c { s with pushback := rest })
  | [] =>
    match s.buffer.get? s.pos with
    | some c => (some c, applyLine c { s with pos := s.pos + 1 })
    | none => (none, s)

/-- `CharSource::unget`: Rust decrements `line` (`saturating_sub`, which
is `Nat` subtraction) for a pushed-back newline, then pushes. -/
def unget (c : Char) (s : CharSource) : CharSource :=
  let s := if c = '\n' then { s with line := s.line - 1, at_line_start := false } else s
  { s with pushback := c :: s.pushback }

/-- `CharSource::is_eof`. -/
def isEof (s : CharSource) : Bool :=
  s.pushback.isEmpty && decide (s.buffer.length ≤ s.pos)

/-- The `incr_line` method called by the lexer.  Modelled from the spec:
its definition is not among the provided sources (only its call sites
are); detex.l's `INCRLINENO` does `fFileLines[csb]++`, and spec §3 says
`line` tracks the line of the next character read, so it increments the
line counter. -/
def incrLine (s : CharSource) : CharSource :=
  { s with line := s.line + 1 }

/-- First phase of `CharSource::peek_ahead`: walk the pushback `Vec` in
index order (the Rust loop `for i in (0..len).rev()` pushes
`pushback[len-1-i]`, i.e. index 0 upward — oldest pushback first),
stopping once the accumulated UTF-8 byte length (`result.len()`)
reaches `n`. -/
def peekAheadPush : List Char → Nat → List Char → List Char
  | [], _, acc => acc
  | c :: rest, n, acc =>
    if n ≤ utf8Len acc then acc else peekAheadPush rest n (acc ++ [c])

/-- `CharSource::peek_ahead`: the pushback phase above, then up to
`n - pushback_used` further characters from the buffer (no byte-length
check in the buffer loop). -/
def peekAhead (s : CharSource) (n : Nat) : List Char :=
  let fromPush := peekAheadPush (s.pushback.reverse) n []
  fromPush ++ (s.buffer.drop s.pos).take (n - fromPush.length)

/-- Characters still obtainable from the source, in the order `next`
would yield them. -/
def stream (s : CharSource) : List Char :=
  s.pushback ++ s.buffer.drop s.pos

/-- Number of characters still obtainable from the source. -/
def rem (s : CharSource) : Nat :=
  s.pushback.length + (s.buffer.length - s.pos)

end CharSource

/-- `config.rs`: `MAX_FILE_STACK`. -/
def MAX_FILE_STACK : Nat := 256

/-- Split a character list on a separator (the separators themselves are
dropped; `n + 1` pieces for `n` separators, like Rust `str::split`). -/
def splitOnChar (sep : Char) : List Char → List (List Char)
  | [] => [[]]
  | c :: rest =>
    let r := splitOnChar sep rest
    if c = sep then [] :: r
    else
      match r with
      | h :: t => (c :: h) :: t
      | [] => [[c]]

/-- `config.rs`: `DEFAULT_ENV` split on `ENV_SEP` (`,`), as built by
`Options::default`. -/
def defaultEnvList : List String :=
  (splitOnChar ','
    ("algorithm,align,array,bmatrix,displaymath,eqnarray,equation," ++
     "floatfig,floating,longtable,picture,pmatrix,psfrags,pspicture," ++
     "smallmatrix,smallpmatrix,tabular,tikzpicture,verbatim,vmatrix," ++
     "wrapfigure").data).map String.mk

/-- `config.rs`: `Options`. -/
structure Options where
  cite : Bool
  latex : Bool
  no_follow : Bool
  space : Bool
  force_tex : Bool
  word : Bool
  src_loc : Bool
  show_pictures : Bool
  replace : Bool
  env_ignore : List String
  include_list : List String
  input_paths : List String
deriving DecidableEq, Repr

/-- `Options::default`. -/
def defaultOptions : Options :=
  { cite := false, latex := false, no_follow := false, space := false,
    force_tex := false, word := false, src_loc := false,
    show_pictures := false, replace := false,
    env_ignore := defaultEnvList, include_list := [], input_paths := [] }

/-- `Options::is_latex`. -/
def Options.isLatex (o : Options) : Bool :=
  o.latex && !o.force_tex

/-- `file_handler.rs`: the stem of the final path component, as computed
by Rust's `Path::file_stem` (entire name when there is no `.` past the
first character; otherwise the part before the last `.`). -/
def fileStem (filename : String) : String :=
  let comp : List Char :=
    match (splitOnChar '/' filename.data).reverse with
    | c :: _ => c
    | [] => filename.data
  match comp with
  | [] => String.mk comp
  | c0 :: rest =>
    if rest.contains '.' then
      -- drop everything from the last '.' in `rest` on
      let keepLen := rest.length - 1 - rest.reverse.indexOf '.'
      String.mk (c0 :: rest.take keepLen)
    else String.mk comp

/-- `file_handler.rs`: `in_include_list`. -/
def inIncludeList (filename : String) (opts : Options) : Bool :=
  if opts.include_list.isEmpty then true
  else opts.include_list.contains (fileStem filename)

theorem fileStem_examples :
    fileStem "chap1.tex" = "chap1" ∧ fileStem "dir/chap1" = "chap1" ∧
    fileStem ".hidden" = ".hidden" := by decide

/-- `lexer.rs`: the `State` enum.  `LaMacro`/`LaMacro2`/`LaOptArg`/
`LaOptArg2` from the source are named `LaKill`/`LaStrip`/`LaKillOpt`/
`LaStripOpt` here (after the `KILLARGS`/`STRIPARGS` macros they
implement). -/
inductive LexState where
  | Normal
  | Define
  | Display
  | IncludeOnly
  | Input
  | Math
  | Control
  | LaDisplay
  | LaEnd
  | LaEnv
  | LaFormula
  | LaInclude
  | LaKill
  | LaKillOpt
  | LaStrip
  | LaStripOpt
  | LaVerbatim
  | LaPicture
deriving DecidableEq, Repr

/-- `lexer.rs`: `FileContext`. -/
structure FileContext where
  source : CharSource
  name : String
deriving DecidableEq, Repr

/-- `lexer.rs`: the `Detex` processor.  `output` models the `W: Write`
sink; `warnings` models the `eprintln!` diagnostic stream.  The head of
`file_stack` is the top (the Rust `Vec`'s last element). -/
structure Detex where
  opts : Options
  state : LexState
  output : List Char
  warnings : List String
  file_stack : List FileContext
  current_ignored_env : String
  open_braces : Nat
  args_count : Nat
  current_braces_level : Nat
  footnote_level : Int
  at_column_zero : Bool
deriving DecidableEq, Repr

namespace Detex

/-- `Detex::new` followed by pushing one source, as `process_file` /
`process_stdin` do before entering the loop. -/
def init (opts : Options) (name content : String) : Detex :=
  { opts := opts, state := .Normal, output := [], warnings := [],
    file_stack := [{ source := CharSource.new content, name := name }],
    current_ignored_env := "", open_braces := 0, args_count := 0,
    current_braces_level := 0, footnote_level := -100, at_column_zero := true }

/-- `Detex::current_filename`. -/
def currentFilename (d : Detex) : String :=
  match d.file_stack with
  | ctx :: _ => ctx.name
  | [] => "<unknown>"

/-- `Detex::current_line`. -/
def currentLine (d : Detex) : Nat :=
  match d.file_stack with
  | ctx :: _ => ctx.source.line
  | [] => 1

/-- Apply a function to the top source (`current_source_mut`). -/
def mapTop (f : CharSource → CharSource) (d : Detex) : Detex :=
  match d.file_stack with
  | ctx :: rest => { d with file_stack := { ctx with source := f ctx.source } :: rest }
  | [] => d

/-- `Detex::next_char`. -/
def nextChar (d : Detex) : Option Char × Detex :=
  match d.file_stack with
  | ctx :: rest =>
    let (c, s') := ctx.source.next
    (c, { d with file_stack := { ctx with source := s' } :: rest })
  | [] => (none, d)

/-- `Detex::peek_char`. -/
def peekChar (d : Detex) : Option Char :=
  match d.file_stack with
  | ctx :: _ => ctx.source.peek
  | [] => none

/-- `Detex::unget_char`. -/
def ungetChar (c : Char) (d : Detex) : Detex :=
  mapTop (CharSource.unget c) d

/-- The characters the lexer can still read from the active source. -/
def dstream (d : Detex) : List Char :=
  match d.file_stack with
  | ctx :: _ => ctx.source.stream
  | [] => []

/-- Characters remaining in the active source (used as loop fuel). -/
def dRem (d : Detex) : Nat :=
  match d.file_stack with
  | ctx :: _ => ctx.source.rem
  | [] => 0

/-- `incr_line` on the top source plus `self.at_column_zero = true`: the
bookkeeping the lexer performs for every newline it consumes inside a
matched pattern (detex.l's `INCRLINENO`). -/
def bumpLine (d : Detex) : Detex :=
  { mapTop CharSource.incrLine d with at_column_zero := true }

/-- `Detex::print_prefix` (detex.l:702-709 `PrintPrefix`). -/
def printPfx (d : Detex) : Detex :=
  if d.opts.src_loc && d.at_column_zero then
    { d with
      output := d.output ++
        (currentFilename d ++ ":" ++ Nat.repr (currentLine d) ++ ": ").data,
      at_column_zero := false }
  else d

/-- `Detex::echo`. -/
def echo (c : Char) (d : Detex) : Detex :=
  let d := printPfx d
  { d with output := d.output ++ [c] }

/-- `Detex::echo_str`. -/
def echoStr (s : List Char) (d : Detex) : Detex :=
  let d := printPfx d
  { d with output := d.output ++ s }

/-- `Detex::newline` (detex.l `LineBreak`): nothing in word mode, else
prefix, `\n`, `incr_line` on the source, and column-zero flag. -/
def lineBreak (d : Detex) : Detex :=
  if d.opts.word then d
  else
    let d := printPfx d
    let d := { d with output := d.output ++ ['\n'] }
    { mapTop CharSource.incrLine d with at_column_zero := true }

/-- `Detex::space` (`SPACE`). -/
def spaceOut (d : Detex) : Detex :=
  if !d.opts.word then { d with output := d.output ++ [' '] } else d

/-- `Detex::noun` (`NOUN`). -/
def nounOut (d : Detex) : Detex :=
  if d.opts.space && !d.opts.word && !d.opts.replace then
    { d with output := d.output ++ [' '] }
  else if d.opts.replace then
    { d with output := d.output ++ "noun".data }
  else d

/-- `Detex::verb_noun` (`VERBNOUN`). -/
def verbNounOut (d : Detex) : Detex :=
  if d.opts.replace then { d with output := d.output ++ " verbs noun".data } else d

/-- `Detex::ignore` (`IGNORE`). -/
def ignoreOut (d : Detex) : Detex :=
  if d.opts.space && !d.opts.word then { d with output := d.output ++ [' '] } else d

/-- `Detex::la_begin` (`LaBEGIN`). -/
def laBegin (st : LexState) (d : Detex) : Detex :=
  if d.opts.isLatex then { d with state := st } else d

/-- `Detex::set_latex` (`LATEX`). -/
def setLatex (d : Detex) : Detex :=
  if !d.opts.force_tex then { d with opts := { d.opts with latex := true } } else d

/-- `Detex::kill_args` (`KILLARGS`). -/
def killArgs (n : Nat) (d : Detex) : Detex :=
  laBegin .LaKill { d with args_count := n, open_braces := 0 }

/-- `Detex::strip_args` (`STRIPARGS`). -/
def stripArgs (n : Nat) (d : Detex) : Detex :=
  laBegin .LaStrip { d with args_count := n, open_braces := 0 }

/-- `Detex::begin_env` (detex.l `BeginEnv`): returns whether `env` is
ignored, recording it as the current ignored environment if so. -/
def beginEnv (env : String) (d : Detex) : Bool × Detex :=
  if !d.opts.isLatex then (false, d)
  else if d.opts.env_ignore.contains env then
    (true, { d with current_ignored_env := env })
  else (false, d)

/-- `Detex::end_env` (detex.l `EndEnv`). -/
def endEnv (env : String) (d : Detex) : Bool :=
  if !d.opts.isLatex then false else env == d.current_ignored_env

/-- `file_handler.rs` `tex_open`, shallowly: the path-search and disk
access are the external file-resolution collaborator (spec §6), supplied
as the oracle `fs` from file name to contents. -/
def texOpen (fs : String → Option String) (filename : String) : Option String :=
  fs filename

/-- `Detex::input_file`: refuse beyond `MAX_FILE_STACK` with a warning;
warn and continue when the file cannot be opened; otherwise push a new
source.  Always `Ok` (the read-error branch of the Rust code is folded
into the oracle returning `none`). -/
def inputFile (fs : String → Option String) (filename : String) (d : Detex) :
    Except String Detex :=
  if d.opts.no_follow then .ok d
  else if MAX_FILE_STACK ≤ d.file_stack.length then
    .ok { d with warnings := d.warnings ++
            ["detex: warning: file stack overflow, ignoring " ++ filename] }
  else
    match texOpen fs filename with
    | some content =>
      .ok { d with file_stack :=
              { source := CharSource.new content, name := filename } :: d.file_stack }
    | none =>
      .ok { d with warnings := d.warnings ++
              ["detex: warning: can't open file " ++ filename] }

/-- `Detex::include_file`. -/
def includeFile (fs : String → Option String) (filename : String) (d : Detex) :
    Except String Detex :=
  if d.opts.no_follow then .ok d
  else if !inIncludeList filename d.opts then .ok d
  else inputFile fs filename d

/-- `Detex::add_include`: push the base name (up to the last `.`) onto
the includeonly list. -/
def addInclude (filename : String) (d : Detex) : Detex :=
  if d.opts.no_follow then d
  else
    let cs := filename.data
    let base :=
      if cs.contains '.' then
        String.mk (cs.take (cs.length - 1 - cs.reverse.indexOf '.'))
      else filename
    { d with opts := { d.opts with include_list := d.opts.include_list ++ [base] } }

end Detex

namespace Detex

/-- Loop of `Detex::read_command_name`, on fuel (`dRem` at entry). -/
def readCmdAux : Nat → Detex → String → String × Detex
  | 0, d, acc => (acc, d)
  | fuel + 1, d, acc =>
    match peekChar d with
    | some c =>
      if isCmdChar c then readCmdAux fuel (nextChar d).2 (acc.push c)
      else (acc, d)
    | none => (acc, d)

/-- `Detex::read_command_name`. -/
def readCommandName (d : Detex) : String × Detex :=
  readCmdAux (dRem d) d ""

/-- Unget a list of characters in reverse (Rust
`for c in matched.into_iter().rev() { self.unget_char(c) }`). -/
def ungetAll (matched : List Char) (d : Detex) : Detex :=
  matched.reverse.foldl (fun d c => ungetChar c d) d

/-- Loop of `Detex::try_match`, structural on the pattern. -/
def tryMatchAux : List Char → List Char → Detex → Bool × Detex
  | [], _, d => (true, d)
  | e :: rest, matched, d =>
    match nextChar d with
    | (some c, d') =>
      if c = e then tryMatchAux rest (matched ++ [c]) d'
      else (false, ungetAll matched (ungetChar c d'))
    | (none, d') => (false, ungetAll matched d')

/-- `Detex::try_match`. -/
def tryMatch (pat : List Char) (d : Detex) : Bool × Detex :=
  tryMatchAux pat [] d

/-- `Detex::match_optional_star`. -/
def matchOptionalStar (d : Detex) : Detex :=
  if peekChar d = some '*' then (nextChar d).2 else d

/-- Loop of `Detex::skip_whitespace`, on fuel. -/
def skipWsAux : Nat → Detex → Detex
  | 0, d => d
  | fuel + 1, d =>
    match peekChar d with
    | some c =>
      if rustIsWhitespace c then
        let d := (nextChar d).2
        let d := if c = '\n' then bumpLine d else d
        skipWsAux fuel d
      else d
    | none => d

/-- `Detex::skip_whitespace`. -/
def skipWhitespace (d : Detex) : Detex :=
  skipWsAux (dRem d) d

/-- Digits-and-dots loop shared by `skip_glue`'s two copies of the
dimension scan. -/
def skipDigitsDotsAux : Nat → Detex → Detex
  | 0, d => d
  | fuel + 1, d =>
    match peekChar d with
    | some c =>
      if rustIsAsciiDigit c || c = '.' then skipDigitsDotsAux fuel (nextChar d).2
      else d
    | none => d

/-- One dimension scan of `Detex::skip_glue` (optional sign, digits and
dots, unit keyword, trailing whitespace) — the block the Rust source
writes twice, before and inside the `plus`/`minus` loop; both
occurrences follow a `skip_whitespace` (lexer.rs:463 on entry,
lexer.rs:479 at the head of the loop body). -/
def skipGlueDim (d : Detex) : Detex :=
  let d :=
    match peekChar d with
    | some c => if c = '+' || c = '-' then (nextChar d).2 else d
    | none => d
  let d := skipDigitsDotsAux (dRem d) d
  let d := (readCommandName d).2
  skipWhitespace d

/-- The `plus`/`minus` loop of `Detex::skip_glue`, on fuel: after a
matched keyword the body first skips whitespace (lexer.rs:479), then
scans the dimension. -/
def skipGlueLoopAux : Nat → Detex → Detex
  | 0, d => d
  | fuel + 1, d =>
    let (mp, d) := tryMatch "plus".data d
    if mp then skipGlueLoopAux fuel (skipGlueDim (skipWhitespace d))
    else
      let (mm, d) := tryMatch "minus".data d
      if mm then skipGlueLoopAux fuel (skipGlueDim (skipWhitespace d))
      else d

/-- `Detex::skip_glue`. -/
def skipGlue (d : Detex) : Detex :=
  let d := skipWhitespace d
  let d := skipGlueDim d
  skipGlueLoopAux (dRem d) d

/-- Balanced-brace loop of `Detex::skip_brace_arg`, on fuel; a `\`
skips the following character (tracking a skipped newline). -/
def braceLoopAux : Nat → Nat → Detex → Detex
  | 0, _, d => d
  | fuel + 1, depth, d =>
    if depth = 0 then d
    else
      match nextChar d with
      | (some c, d) =>
        if c = '{' then braceLoopAux fuel (depth + 1) d
        else if c = '}' then braceLoopAux fuel (depth - 1) d
        else if c = '\\' then
          match nextChar d with
          | (some ch, d) =>
            let d := if ch = '\n' then bumpLine d else d
            braceLoopAux fuel depth d
          | (none, d) => braceLoopAux fuel depth d
        else if c = '\n' then braceLoopAux fuel depth (bumpLine d)
        else braceLoopAux fuel depth d
      | (none, d) => d

/-- `Detex::skip_brace_arg`. -/
def skipBraceArg (d : Detex) : Detex :=
  let d := skipWhitespace d
  let (m, d) := tryMatch ['{'] d
  if m then braceLoopAux (dRem d) 1 d else d

/-- Balanced-bracket loop of `Detex::skip_optional_bracket_arg`. -/
def bracketLoopAux : Nat → Nat → Detex → Detex
  | 0, _, d => d
  | fuel + 1, depth, d =>
    if depth = 0 then d
    else
      match nextChar d with
      | (some c, d) =>
        if c = '[' then bracketLoopAux fuel (depth + 1) d
        else if c = ']' then bracketLoopAux fuel (depth - 1) d
        else if c = '\\' then
          match nextChar d with
          | (some ch, d) =>
            let d := if ch = '\n' then bumpLine d else d
            bracketLoopAux fuel depth d
          | (none, d) => bracketLoopAux fuel depth d
        else if c = '\n' then bracketLoopAux fuel depth (bumpLine d)
        else bracketLoopAux fuel depth d
      | (none, d) => d

/-- `Detex::skip_optional_bracket_arg`. -/
def skipOptBracketArg (d : Detex) : Detex :=
  if peekChar d = some '[' then bracketLoopAux (dRem d) 1 (nextChar d).2 else d

end Detex

namespace Detex

/-- Comment loop of `process_normal`'s `%` arm: consume through the next
newline (tracked) or end of input. -/
def commentAux : Nat → Detex → Detex
  | 0, d => d
  | fuel + 1, d =>
    match nextChar d with
    | (some c, d) => if c = '\n' then bumpLine d else commentAux fuel d
    | (none, d) => d

/-- Dash loop of `process_normal`'s `-` arm: consume further dashes while
fewer than 3 have been seen.  The loop runs at most twice, so fuel 2 is
exact. -/
def dashAux : Nat → Nat → Detex → Detex
  | 0, _, d => d
  | fuel + 1, dashes, d =>
    if peekChar d = some '-' && dashes < 3 then dashAux fuel (dashes + 1) (nextChar d).2
    else d

/-- Word loop of `process_normal`'s alphabetic arm: letters, plus an
apostrophe kept only when another letter follows (otherwise pushed
back). -/
def wordAux : Nat → Detex → List Char → List Char × Detex
  | 0, d, acc => (acc, d)
  | fuel + 1, d, acc =>
    match peekChar d with
    | some ch =>
      if rustIsAsciiAlpha ch then wordAux fuel (nextChar d).2 (acc ++ [ch])
      else if ch = '\'' then
        let d := (nextChar d).2
        match peekChar d with
        | some nx =>
          if rustIsAsciiAlpha nx then wordAux fuel d (acc ++ ['\''])
          else (acc, ungetChar '\'' d)
        | none => (acc, ungetChar '\'' d)
      else (acc, d)
    | none => (acc, d)

/-- Digit loop of `process_normal`'s numeric arm. -/
def numAux : Nat → Detex → List Char → List Char × Detex
  | 0, d, acc => (acc, d)
  | fuel + 1, d, acc =>
    match peekChar d with
    | some ch =>
      if rustIsAsciiDigit ch then numAux fuel (nextChar d).2 (acc ++ [ch])
      else (acc, d)
    | none => (acc, d)

/-- Number-run loop of `process_normal`'s `{`-dimension hack: consume
digits, dots and signs, collecting them for possible pushback. -/
def numRunAux : Nat → Detex → List Char → List Char × Detex
  | 0, d, acc => (acc, d)
  | fuel + 1, d, acc =>
    match peekChar d with
    | some ch =>
      if rustIsAsciiDigit ch || ch = '.' || ch = '+' || ch = '-' then
        numRunAux fuel (nextChar d).2 (acc ++ [ch])
      else (acc, d)
    | none => (acc, d)

/-- Newline-consuming loop of the `\begin{document}` arm (the trailing
`"\n"*` of the detex.l:214 pattern). -/
def nlLoopAux : Nat → Detex → Detex
  | 0, d => d
  | fuel + 1, d =>
    if peekChar d = some '\n' then nlLoopAux fuel (bumpLine (nextChar d).2)
    else d

/-- Bracket-option loop of the `\includegraphics` arm: skip every
leading `[...]` group. -/
def optBracketLoopAux : Nat → Detex → Detex
  | 0, d => d
  | fuel + 1, d =>
    if peekChar d = some '[' then optBracketLoopAux fuel (skipOptBracketArg d)
    else d

/-- Delimiter loop of the `\verb` arm: echo until the delimiter;
newline or NUL is the fatal unterminated-verb error; end of input ends
the loop without error (fuel equals the characters available, so fuel
exhaustion coincides with end of input). -/
def verbLoopAux : Nat → Char → Detex → Except String Detex
  | 0, _, d => .ok d
  | fuel + 1, delim, d =>
    match nextChar d with
    | (some c, d) =>
      if c = delim then .ok d
      else if c = '\n' || c = '\x00' then .error "\\verb not complete before eof"
      else verbLoopAux fuel delim { d with output := d.output ++ [c] }
    | (none, d) => .ok d

/-- Filename loop of `process_include_only`: collect until `,`, `}` or
whitespace. -/
def incOnlyNameAux : Nat → Detex → List Char → List Char × Detex
  | 0, d, acc => (acc, d)
  | fuel + 1, d, acc =>
    match peekChar d with
    | some c =>
      if c = ',' || c = '}' || rustIsWhitespace c then (acc, d)
      else incOnlyNameAux fuel (nextChar d).2 (acc ++ [c])
    | none => (acc, d)

/-- Filename loop of `process_input` / `process_la_include`: collect
until whitespace or `}`. -/
def inputNameAux : Nat → Detex → List Char → List Char × Detex
  | 0, d, acc => (acc, d)
  | fuel + 1, d, acc =>
    match peekChar d with
    | some c =>
      if rustIsWhitespace c || c = '}' then (acc, d)
      else inputNameAux fuel (nextChar d).2 (acc ++ [c])
    | none => (acc, d)

/-- Picture-name loop of `process_la_picture`: collect until `{` or
`}`. -/
def pictureNameAux : Nat → Detex → List Char → List Char × Detex
  | 0, d, acc => (acc, d)
  | fuel + 1, d, acc =>
    match peekChar d with
    | some c =>
      if c = '{' || c = '}' then (acc, d)
      else pictureNameAux fuel (nextChar d).2 (acc ++ [c])
    | none => (acc, d)

/-- Trailing-whitespace loop of `process_la_picture`'s `}` arm: consume
whitespace, stopping just after a newline. -/
def pictureWsAux : Nat → Detex → Detex
  | 0, d => d
  | fuel + 1, d =>
    match peekChar d with
    | some c =>
      if rustIsWhitespace c then
        let d := (nextChar d).2
        if c = '\n' then d else pictureWsAux fuel d
      else d
    | none => d

end Detex

namespace Detex

/-- Lookahead used by the space-before-`\cite` check (Rust calls
`current_source().peek_ahead(n)`). -/
def dPeekAhead (d : Detex) (n : Nat) : List Char :=
  match d.file_stack with
  | ctx :: _ => ctx.source.peekAhead n
  | [] => []

/-- `Detex::process_backslash` — dispatch after a `\` in Normal state
(detex.l:214-456). -/
def processBackslash (d : Detex) : Except String Detex :=
  let (cmd, d) := readCommandName d
  match cmd with
  | "" =>
    -- non-alphabetic command: \(, \[, \\, "\ ", \%, \$, \<other>
    (match nextChar d with
     | (some c, d) =>
       if c = '(' then .ok (nounOut (laBegin .LaFormula d))
       else if c = '[' then .ok (nounOut (laBegin .LaDisplay d))
       else if c = '\\' then
         let d := matchOptionalStar d
         let d := skipOptBracketArg d
         .ok (lineBreak d)
       else if c = ' ' then .ok (spaceOut d)
       else if c = '%' then
         .ok (if d.opts.word then d else { d with output := d.output ++ ['%'] })
       else if c = '$' then
         .ok (if d.opts.word then d else { d with output := d.output ++ ['$'] })
       else .ok (ignoreOut d)
     | (none, d) => .ok (ignoreOut d))
  | "begin" =>
    let d := ignoreOut d
    if !d.opts.isLatex then .ok d
    else
      let d := skipWhitespace d
      let (m, d) := tryMatch ['{'] d
      if m then
        let d := skipWhitespace d
        let (env, d) := readCommandName d
        let d := skipWhitespace d
        let d := (tryMatch ['}'] d).2
        if env = "document" then
          let d := setLatex d
          .ok (nlLoopAux (dRem d) d)
        else if env = "verbatim" then
          let (ign, d) := beginEnv "verbatim" d
          let d := if ign then { d with state := .LaEnv } else { d with state := .LaVerbatim }
          .ok (ignoreOut d)
        else if env = "minipage" then
          let d := killArgs 1 d
          let (ign, d) := beginEnv "minipage" d
          let d := if ign then { d with state := .LaEnv } else d
          .ok (ignoreOut d)
        else if env = "table" || env = "figure" then
          let d := skipWhitespace d
          let d := skipOptBracketArg d
          let (ign, d) := beginEnv env d
          let d := if ign then { d with state := .LaEnv } else d
          .ok (ignoreOut d)
        else
          let (ign, d) := beginEnv env d
          let d := if ign then { d with state := .LaEnv } else d
          .ok (ignoreOut d)
      else .ok d
  | "end" => .ok (ignoreOut (killArgs 1 d))
  | "kern" | "vskip" | "hskip" => .ok (skipGlue d)
  | "vspace" | "hspace" => .ok (skipBraceArg (matchOptionalStar d))
  | "addvspace" => .ok (skipBraceArg d)
  | "newlength" | "newsavebox" | "usebox" | "parbox" | "rotatebox" | "sbox" =>
    .ok (killArgs 1 d)
  | "setlength" | "addtolength" | "settowidth" | "settoheight" | "settodepth"
  | "savebox" => .ok (killArgs 2 d)
  | "raisebox" | "scalebox" | "foilhead" => .ok (stripArgs 2 d)
  | "resizebox" => .ok (killArgs 2 (matchOptionalStar d))
  | "reflectbox" => .ok d
  | "definecolor" | "fcolorbox" | "addcontentsline" => .ok (killArgs 3 d)
  | "textcolor" | "colorbox" => .ok (killArgs 2 d)
  | "color" | "pagecolor" => .ok (killArgs 1 d)
  | "addfontfeature" | "thispagestyle" => .ok (killArgs 1 d)
  | "includegraphics" =>
    let d := optBracketLoopAux (dRem d) d
    .ok (laBegin .LaPicture d)
  | "part" | "chapter" | "section" | "subsection" | "subsubsection" | "paragraph"
  | "subparagraph" => .ok (matchOptionalStar d)
  | "bibitem" | "bibliography" | "bibstyle" => .ok (ignoreOut (killArgs 1 d))
  | "cite" => .ok (killArgs 1 d)
  | "hypersetup" | "index" => .ok (killArgs 1 d)
  | "label" => .ok (ignoreOut (killArgs 1 d))
  | "nameref" | "pageref" | "ref" =>
    -- CITE(x): if fLatex && !fCite then KILLARGS(x); then IGNORE
    let d := if d.opts.isLatex && !d.opts.cite then killArgs 1 d else d
    .ok (ignoreOut d)
  | "pagestyle" => .ok (ignoreOut (killArgs 1 d))
  | "setcounter" | "addtocounter" => .ok (ignoreOut (killArgs 2 d))
  | "newcounter" => .ok (killArgs 1 d)
  | "stepcounter" => .ok (killArgs 2 d)
  | "fontspec" => .ok (killArgs 1 d)
  | "documentstyle" | "documentclass" => .ok (ignoreOut (killArgs 1 (setLatex d)))
  | "usepackage" => .ok (ignoreOut (killArgs 1 d))
  | "include" => .ok (ignoreOut (laBegin .LaInclude d))
  | "includeonly" => .ok (ignoreOut { d with state := .IncludeOnly })
  | "subfile" => .ok (ignoreOut (laBegin .LaInclude d))
  | "input" => .ok (ignoreOut { d with state := .Input })
  | "footnote" =>
    let d := skipOptBracketArg d
    let (m, d) := tryMatch ['{'] d
    if m then
      .ok { d with
            output := d.output ++ ['('],
            footnote_level := i32cast d.current_braces_level,
            current_braces_level := d.current_braces_level + 1 }
    else .ok d
  | "verb" =>
    if d.opts.isLatex then
      match nextChar d with
      | (some delim, d) =>
        if delim < ' ' then .error "\\verb not complete before eof"
        else verbLoopAux (dRem d) delim d
      | (none, d) => .ok d
    else .ok d
  | "newcommand" | "renewcommand" => .ok (killArgs 2 (setLatex d))
  | "newenvironment" => .ok (killArgs 3 (setLatex d))
  | "def" => .ok (ignoreOut { d with state := .Define })
  | "slash" =>
    .ok (if d.opts.word then d else { d with output := d.output ++ ['/'] })
  | "aa" | "AA" | "ae" | "AE" | "oe" | "OE" | "ss" =>
    let d := if d.opts.word then d else { d with output := d.output ++ cmd.data }
    let d :=
      match peekChar d with
      | some c => if rustIsWhitespace c || c = '}' then (nextChar d).2 else d
      | none => d
    .ok d
  | "O" | "o" | "i" | "j" | "L" | "l" =>
    let d := if d.opts.word then d else { d with output := d.output ++ cmd.data }
    let d :=
      match peekChar d with
      | some c => if rustIsWhitespace c || c = '}' then (nextChar d).2 else d
      | none => d
    .ok d
  | "linebreak" => .ok (lineBreak (skipOptBracketArg d))
  | _ => .ok (ignoreOut { d with state := .Control })

/-- `Detex::process_normal` — the Normal-state consumer
(detex.l:212-485). -/
def processNormal (d : Detex) : Except String Detex :=
  match nextChar d with
  | (none, d) => .ok d
  | (some c, d) =>
    if c = '%' then .ok (ignoreOut (commentAux (dRem d) d))
    else if c = '\\' then processBackslash d
    else if c = '$' then
      if peekChar d = some '$' then
        .ok (nounOut { (nextChar d).2 with state := .Display })
      else .ok (nounOut { d with state := .Math })
    else if c = '{' then
      -- detex.l:280 hack: a `{<number>pt}` group is consumed outright
      (match peekChar d with
       | some nx =>
         if rustIsAsciiDigit nx || nx = '+' || nx = '-' || nx = '.' then
           let (consumed, d) := numRunAux (dRem d) d []
           let hasDigit := !consumed.isEmpty
           let (ptm, d) := tryMatch ['p', 't'] d
           let closeB := peekChar d = some '}'
           if hasDigit && ptm && closeB then .ok (nextChar d).2
           else
             let d := if ptm then ungetChar 'p' (ungetChar 't' d) else d
             let d := ungetAll consumed d
             .ok { d with current_braces_level := d.current_braces_level + 1 }
         else .ok { d with current_braces_level := d.current_braces_level + 1 }
       | none => .ok { d with current_braces_level := d.current_braces_level + 1 })
    else if c = '}' then
      let b := d.current_braces_level - 1
      let d := { d with current_braces_level := b }
      if i32cast b = d.footnote_level then
        .ok { d with output := d.output ++ [')'], footnote_level := -100 }
      else .ok d
    else if c = '~' then .ok (spaceOut d)
    else if c = '|' then .ok (ignoreOut d)
    else if c = '!' || c = '?' then
      if peekChar d = some '`' then .ok (nextChar d).2
      else if !d.opts.word then .ok (echo c d)
      else .ok d
    else if c = '-' then
      let d := dashAux 2 1 d
      .ok (if d.opts.word then d else { d with output := d.output ++ ['-'] })
    else if c = '`' then
      if peekChar d = some '`' then
        let d := (nextChar d).2
        .ok (if d.opts.word then d else { d with output := d.output ++ ['"'] })
      else .ok (if d.opts.word then d else { d with output := d.output ++ ['\''] })
    else if c = '\'' then
      if peekChar d = some '\'' then
        let d := (nextChar d).2
        .ok (if d.opts.word then d else { d with output := d.output ++ ['"'] })
      else if !d.opts.word then .ok (echo c d)
      else .ok d
    else if c = ',' then
      if peekChar d = some ',' then
        let d := (nextChar d).2
        .ok (if d.opts.word then d else { d with output := d.output ++ ['"'] })
      else if !d.opts.word then .ok (echo c d)
      else .ok d
    else if c = '\n' then
      .ok (if !d.opts.word then lineBreak d else d)
    else if c = '\t' then
      .ok (if !d.opts.word then { d with output := d.output ++ ['\t'] } else d)
    else if rustIsAsciiAlpha c then
      let (word, d) := wordAux (dRem d) d [c]
      if d.opts.word then .ok { d with output := d.output ++ word ++ ['\n'] }
      else .ok (echoStr word d)
    else if rustIsAsciiDigit c then
      if !d.opts.word then
        let (num, d) := numAux (dRem d) d [c]
        .ok (echoStr num d)
      else .ok d
    else
      if !d.opts.word then
        -- detex.l:327: a space directly before `\cite` is swallowed
        if c = ' ' && peekChar d = some '\\' then
          let la := dPeekAhead d 6
          -- Rust compares `lookahead.len() >= 5` (UTF-8 bytes) and the
          -- byte slice `lookahead[0..5]` with "\cite"; on the characters
          -- themselves this is: at least 5 characters, the first five
          -- being `\cite` (ASCII, so bytes and characters agree).
          if 5 ≤ la.length && la.take 5 = "\\cite".data then
            if la.length = 5 || !rustIsAsciiAlpha (la.getD 5 ' ') then .ok d
            else .ok (echo c d)
          else .ok (echo c d)
        else .ok (echo c d)
      else .ok d

end Detex

namespace Detex

/-- `is_verb_symbol` (detex.l:204 `VERBSYMBOL` command names). -/
def isVerbSymbol (cmd : String) : Bool :=
  cmd == "leq" || cmd == "geq" || cmd == "in" || cmd == "subseteq" ||
  cmd == "subset" || cmd == "supset" || cmd == "sim" || cmd == "neq" ||
  cmd == "mapsto"

/-- `Detex::check_verb_symbol`. -/
def checkVerbSymbol (c : Char) (d : Detex) : Detex :=
  if c = '=' || c = '>' || c = '<' then verbNounOut d
  else if c = '\\' then
    let (cmd, d) := readCommandName d
    if isVerbSymbol cmd then verbNounOut d else d
  else d

/-- `Detex::process_define` (detex.l:373-376). -/
def processDefine (d : Detex) : Except String Detex :=
  match nextChar d with
  | (some c, d) =>
    if c = '{' then .ok { d with state := .Normal }
    else if c = '\n' then .ok (lineBreak d)
    else .ok d
  | (none, d) => .ok d

/-- `Detex::process_display` (detex.l:390-394). -/
def processDisplay (d : Detex) : Except String Detex :=
  match nextChar d with
  | (some c, d) =>
    if c = '$' then
      if peekChar d = some '$' then .ok { (nextChar d).2 with state := .Normal }
      else .ok (checkVerbSymbol '$' d)
    else if c = '\n' then .ok (lineBreak d)
    else .ok (checkVerbSymbol c d)
  | (none, d) => .ok d

/-- `Detex::process_math` (detex.l:396-401). -/
def processMath (d : Detex) : Except String Detex :=
  match nextChar d with
  | (some c, d) =>
    if c = '$' then .ok { d with state := .Normal }
    else if c = '\\' then
      if peekChar d = some '$' then .ok (nextChar d).2
      else
        let (cmd, d) := readCommandName d
        .ok (if isVerbSymbol cmd then verbNounOut d else d)
    else if c = '\n' then .ok d
    else .ok (checkVerbSymbol c d)
  | (none, d) => .ok d

/-- `Detex::process_control` (detex.l:451-456) — resync after an unknown
command. -/
def processControl (d : Detex) : Except String Detex :=
  match nextChar d with
  | (some c, d) =>
    if c = '\n' then .ok { d with state := .Normal }
    else if rustIsWhitespace c then
      let d := skipWhitespace d
      let d :=
        if peekChar d = some '{' then
          let d := (nextChar d).2
          { d with current_braces_level := d.current_braces_level + 1 }
        else d
      .ok (ignoreOut { d with state := .Normal })
    else if c = '{' then
      .ok (ignoreOut { d with
        current_braces_level := d.current_braces_level + 1, state := .Normal })
    else if c = '\\' then
      let (_, d) := readCommandName d
      .ok (ignoreOut d)
    else if rustIsAsciiAlnum c || c = '-' || c = '\'' || c = '=' || c = '`' then
      .ok d
    else .ok { ungetChar c d with state := .Normal }
  | (none, d) => .ok { d with state := .Normal }

/-- `Detex::process_include_only` (detex.l:410-417). -/
def processIncludeOnly (d : Detex) : Except String Detex :=
  let d := skipWhitespace d
  match peekChar d with
  | some c =>
    if c = '{' then .ok (nextChar d).2
    else if c = '}' then
      let d := (nextChar d).2
      let d :=
        if d.opts.include_list.isEmpty then
          { d with opts := { d.opts with include_list := [""] } }
        else d
      .ok { d with state := .Normal }
    else if c = ',' then .ok (nextChar d).2
    else if c = '\n' then .ok (lineBreak d)
    else
      let (filename, d) := incOnlyNameAux (dRem d) d []
      .ok (if filename.isEmpty then d else addInclude (String.mk filename) d)
  | none => .ok d

/-- `Detex::process_input` (detex.l:426-431). -/
def processInput (fs : String → Option String) (d : Detex) : Except String Detex :=
  let d := skipWhitespace d
  match peekChar d with
  | some c =>
    if c = '{' then .ok (nextChar d).2
    else if c = '\n' then .ok (lineBreak d)
    else if !rustIsWhitespace c && c ≠ '}' then
      let (filename, d) := inputNameAux (dRem d) d []
      if filename.isEmpty then .ok { d with state := .Normal }
      else do
        let d ← inputFile fs (String.mk filename) d
        .ok { d with state := .Normal }
    else .ok { d with state := .Normal }
  | none => .ok { d with state := .Normal }

/-- `Detex::process_la_env` (detex.l:262-264) — absorb an ignored
environment. -/
def processLaEnv (d : Detex) : Except String Detex :=
  match peekChar d with
  | some c =>
    if c = '\\' then
      let d := (nextChar d).2
      let (m, d) := tryMatch "end".data d
      if m then .ok (ignoreOut (laBegin .LaEnd d))
      else .ok d
    else if c = '\n' then .ok (bumpLine (nextChar d).2)
    else .ok (nextChar d).2
  | none => .ok d

/-- `Detex::process_la_end` (detex.l:266-272) — parse `\end{name}`
inside an ignored environment. -/
def processLaEnd (d : Detex) : Except String Detex :=
  let d := skipWhitespace d
  match peekChar d with
  | some c =>
    if c = '{' then
      let d := (nextChar d).2
      let d := skipWhitespace d
      let (env, d) := readCommandName d
      let d := skipWhitespace d
      let d :=
        if endEnv env d then { d with state := .Normal }
        else { d with state := .LaEnv }
      .ok (ignoreOut d)
    else if rustIsAsciiAlpha c then
      let (env, d) := readCommandName d
      let d := if endEnv env d then { d with state := .Normal } else d
      .ok (ignoreOut d)
    else if c = '}' then
      .ok (ignoreOut { (nextChar d).2 with state := .LaEnv })
    else if c = '\n' then .ok (nextChar d).2
    else .ok (nextChar d).2
  | none => .ok { d with state := .Normal }

/-- `Detex::process_la_display` (detex.l:384-388). -/
def processLaDisplay (d : Detex) : Except String Detex :=
  match nextChar d with
  | (some c, d) =>
    if c = '\\' then
      let (m, d) := tryMatch [']'] d
      if m then .ok { d with state := .Normal }
      else
        let (cmd, d) := readCommandName d
        .ok (if isVerbSymbol cmd then verbNounOut d else d)
    else if c = '\n' then .ok (lineBreak d)
    else .ok (checkVerbSymbol c d)
  | (none, d) => .ok d

/-- `Detex::process_la_formula` (detex.l:378-382). -/
def processLaFormula (d : Detex) : Except String Detex :=
  match nextChar d with
  | (some c, d) =>
    if c = '\\' then
      let (m, d) := tryMatch [')'] d
      if m then .ok { d with state := .Normal }
      else
        let (cmd, d) := readCommandName d
        .ok (if isVerbSymbol cmd then verbNounOut d else d)
    else if c = '\n' then .ok (lineBreak d)
    else .ok (checkVerbSymbol c d)
  | (none, d) => .ok d

/-- `Detex::process_la_include` (detex.l:403-408, also `LaSubfile`). -/
def processLaInclude (fs : String → Option String) (d : Detex) :
    Except String Detex :=
  let d := skipWhitespace d
  match peekChar d with
  | some c =>
    if c = '{' then .ok (nextChar d).2
    else if c = '\n' then .ok (lineBreak d)
    else if !rustIsWhitespace c && c ≠ '}' then
      let (filename, d) := inputNameAux (dRem d) d []
      if filename.isEmpty then .ok { d with state := .Normal }
      else do
        let d ← includeFile fs (String.mk filename) d
        .ok { d with state := .Normal }
    else .ok { d with state := .Normal }
  | none => .ok { d with state := .Normal }

/-- `Detex::process_la_macro` (detex.l:487-498, `LaMacro` in the source)
— consume N brace-delimited arguments. -/
def processLaKill (d : Detex) : Except String Detex :=
  match nextChar d with
  | (some c, d) =>
    if c = '[' then .ok { d with state := .LaKillOpt }
    else if c = '{' then .ok { d with open_braces := d.open_braces + 1 }
    else if c = '}' then
      let d := { d with open_braces := d.open_braces - 1 }
      if d.open_braces = 0 then
        let d := { d with args_count := d.args_count - 1 }
        if d.args_count = 0 then
          let d :=
            if peekChar d = some '\n' then bumpLine (nextChar d).2 else d
          .ok { d with state := .Normal }
        else .ok d
      else .ok d
    else if c = '\n' then .ok (bumpLine d)
    else .ok d
  | (none, d) => .ok d

/-- `Detex::process_la_opt_arg` (detex.l:497-498, `LaOptArg`). -/
def processLaKillOpt (d : Detex) : Except String Detex :=
  match nextChar d with
  | (some c, d) =>
    if c = ']' then .ok { d with state := .LaKill }
    else if c = '\n' then .ok (bumpLine d)
    else .ok d
  | (none, d) => .ok d

/-- `Detex::process_la_macro2` (detex.l:500-514, `LaMacro2` in the
source) — consume N−1 arguments, keeping the last.  When the final
argument's opening brace is seen with `open_braces == 0`, the Rust code
does `open_braces.wrapping_sub(1)` followed by `open_braces += 1`; in a
release build the pair nets to the original value modulo `2 ^ 64`, which
is modelled here explicitly. -/
def processLaStrip (d : Detex) : Except String Detex :=
  match nextChar d with
  | (some c, d) =>
    if c = '[' then .ok { d with state := .LaStripOpt }
    else if c = '{' then
      if d.open_braces = 0 then
        let d := { d with args_count := d.args_count - 1 }
        if d.args_count = 0 then
          let d := { d with state := .Normal }
          let d := { d with open_braces := (d.open_braces + (usizeMod - 1)) % usizeMod }
          .ok { d with open_braces := (d.open_braces + 1) % usizeMod }
        else
          .ok { d with open_braces := d.open_braces + 1 }
      else .ok { d with open_braces := d.open_braces + 1 }
    else if c = '}' then .ok { d with open_braces := d.open_braces - 1 }
    else if c = '\n' then .ok (bumpLine d)
    else .ok d
  | (none, d) => .ok d

/-- `Detex::process_la_opt_arg2` (detex.l:513-514, `LaOptArg2`). -/
def processLaStripOpt (d : Detex) : Except String Detex :=
  match nextChar d with
  | (some c, d) =>
    if c = ']' then .ok { d with state := .LaStrip }
    else if c = '\n' then .ok (bumpLine d)
    else .ok d
  | (none, d) => .ok d

/-- `Detex::process_la_verbatim` (detex.l:225-227) — literal echo until
`\end{verbatim}`. -/
def processLaVerbatim (d : Detex) : Except String Detex :=
  match nextChar d with
  | (some c, d) =>
    if c = '\\' then
      let (m1, d) := tryMatch "end".data d
      if m1 then
        let d := skipWhitespace d
        let (m2, d) := tryMatch ['{'] d
        if m2 then
          let d := skipWhitespace d
          let (m3, d) := tryMatch "verbatim".data d
          if m3 then
            let d := skipWhitespace d
            let d := (tryMatch ['}'] d).2
            .ok (ignoreOut { d with state := .Normal })
          else .ok { d with output := d.output ++ ['\\'] }
        else .ok { d with output := d.output ++ ['\\'] }
      else .ok { d with output := d.output ++ ['\\'] }
    else .ok (echo c d)
  | (none, d) => .ok d

/-- `Detex::process_la_picture` (detex.l:300-303) — parse
`\includegraphics{file}`. -/
def processLaPicture (d : Detex) : Except String Detex :=
  match nextChar d with
  | (some c, d) =>
    if c = '{' then .ok d
    else if c = '}' then
      let d := { d with state := .Normal }
      .ok (pictureWsAux (dRem d) d)
    else
      if d.opts.show_pictures then
        let (name, d) := pictureNameAux (dRem d) d [c]
        .ok { d with output :=
                d.output ++ ("<Picture " ++ String.mk name ++ ">").data }
      else .ok d
  | (none, d) => .ok { d with state := .Normal }

/-- `Detex::process_next` — state dispatch. -/
def processNext (fs : String → Option String) (d : Detex) : Except String Detex :=
  match d.state with
  | .Normal => processNormal d
  | .Define => processDefine d
  | .Display => processDisplay d
  | .IncludeOnly => processIncludeOnly d
  | .Input => processInput fs d
  | .Math => processMath d
  | .Control => processControl d
  | .LaDisplay => processLaDisplay d
  | .LaEnd => processLaEnd d
  | .LaEnv => processLaEnv d
  | .LaFormula => processLaFormula d
  | .LaInclude => processLaInclude fs d
  | .LaKill => processLaKill d
  | .LaKillOpt => processLaKillOpt d
  | .LaStrip => processLaStrip d
  | .LaStripOpt => processLaStripOpt d
  | .LaVerbatim => processLaVerbatim d
  | .LaPicture => processLaPicture d

/-- Whether the active source is exhausted (`current_source().map(is_eof)
.unwrap_or(true)`). -/
def topEof (d : Detex) : Bool :=
  match d.file_stack with
  | ctx :: _ => ctx.source.isEof
  | [] => true

/-- `Detex::process` — the main loop, on an explicit iteration budget
(the loop terminates in the source; fuel exhaustion returns the state
reached so far). -/
def run (fs : String → Option String) : Nat → Detex → Except String Detex
  | 0, d => .ok d
  | fuel + 1, d =>
    if d.file_stack.isEmpty then .ok d
    else if topEof d then run fs fuel { d with file_stack := d.file_stack.tail }
    else do
      let d ← processNext fs d
      run fs fuel d

end Detex

/-! ## Stream view of a `CharSource` -/

namespace CharSource

theorem head?_drop (l : List Char) (n : Nat) : (l.drop n).head? = l.get? n := by
  induction l generalizing n with
  | nil => cases n <;> simp
  | cons a t ih => cases n <;> simp [ih]

theorem stream_new (s : String) : (new s).stream = s.data := by
  simp [new, stream]

theorem peek_eq_head (s : CharSource) : s.peek = s.stream.head? := by
  unfold peek stream
  cases h : s.pushback with
  | nil => simp [head?_drop]
  | cons c t => simp

theorem stream_applyLine (c : Char) (s : CharSource) :
    (applyLine c s).stream = s.stream := by
  unfold applyLine stream
  split <;> simp

theorem next_of_stream_cons {s : CharSource} {c : Char} {t : List Char}
    (h : s.stream = c :: t) :
    (s.next).1 = some c ∧ (s.next).2.stream = t := by
  unfold next
  cases hp : s.pushback with
  | cons a pb =>
    unfold stream at h
    rw [hp] at h
    simp at h
    obtain ⟨rfl, h2⟩ := h
    constructor
    · rfl
    · simp [stream_applyLine]
      unfold stream
      simpa using h2
  | nil =>
    unfold stream at h
    rw [hp] at h
    simp at h
    have hg : s.buffer.get? s.pos = some c := by
      rw [← head?_drop, h]
      rfl
    rw [hg]
    refine ⟨rfl, ?_⟩
    rw [stream_applyLine]
    unfold stream
    simp
    have : s.buffer.drop (s.pos + 1) = (s.buffer.drop s.pos).tail := by
      rw [← List.drop_drop]
      simp [List.drop_one]
    rw [this, h]
    rfl

theorem next_of_stream_nil {s : CharSource} (h : s.stream = []) :
    s.next = (none, s) := by
  unfold stream at h
  unfold next
  rcases List.append_eq_nil.mp h with ⟨h1, h2⟩
  rw [h1]
  have : s.buffer.get? s.pos = none := by
    rw [← head?_drop, h2]; rfl
  rw [this]

theorem stream_unget (c : Char) (s : CharSource) :
    (unget c s).stream = c :: s.stream := by
  unfold unget stream
  split <;> simp

theorem isEof_iff (s : CharSource) : s.isEof = true ↔ s.stream = [] := by
  unfold isEof stream
  constructor
  · intro h
    simp at h
    obtain ⟨h1, h2⟩ := h
    simp [h1, List.drop_eq_nil_iff.mpr h2]
  · intro h
    rcases List.append_eq_nil.mp h with ⟨h1, h2⟩
    simp [h1, List.drop_eq_nil_iff.mp h2]

theorem rem_eq (s : CharSource) : s.rem = s.stream.length := by
  unfold rem stream
  simp

theorem stream_incrLine (s : CharSource) : (incrLine s).stream = s.stream := rfl

end CharSource

/-! ## Stream view and frame relations for the processor state -/

namespace Detex

/-- Display names of the stacked sources (top first). -/
def stackNames (d : Detex) : List String :=
  d.file_stack.map FileContext.name

/-- Fields of the scanner untouched by pure stream consumption: options,
state, diagnostics, counters, and the shape of the file stack. -/
def SameCore (d d' : Detex) : Prop :=
  d'.opts = d.opts ∧ d'.state = d.state ∧ d'.warnings = d.warnings ∧
  d'.current_ignored_env = d.current_ignored_env ∧
  d'.open_braces = d.open_braces ∧ d'.args_count = d.args_count ∧
  d'.current_braces_level = d.current_braces_level ∧
  d'.footnote_level = d.footnote_level ∧ stackNames d' = stackNames d

theorem SameCore.rfl {d : Detex} : SameCore d d :=
  ⟨Eq.refl _, Eq.refl _, Eq.refl _, Eq.refl _, Eq.refl _, Eq.refl _,
   Eq.refl _, Eq.refl _, Eq.refl _⟩

theorem SameCore.trans {a b c : Detex} (h1 : SameCore a b) (h2 : SameCore b c) :
    SameCore a c := by
  obtain ⟨p1, p2, p3, p4, p5, p6, p7, p8, p9⟩ := h1
  obtain ⟨q1, q2, q3, q4, q5, q6, q7, q8, q9⟩ := h2
  exact ⟨q1.trans p1, q2.trans p2, q3.trans p3, q4.trans p4, q5.trans p5,
         q6.trans p6, q7.trans p7, q8.trans p8, q9.trans p9⟩

theorem stack_ne_nil_of_sameCore {d d' : Detex} (h : SameCore d d')
    (hne : d.file_stack ≠ []) : d'.file_stack ≠ [] := by
  intro hcon
  apply hne
  have := h.2.2.2.2.2.2.2.2
  unfold stackNames at this
  rw [hcon] at this
  simpa using (List.map_eq_nil_iff.mp this.symm)

theorem peekChar_eq_head (d : Detex) : peekChar d = (dstream d).head? := by
  unfold peekChar dstream
  cases d.file_stack with
  | nil => rfl
  | cons ctx rest => exact CharSource.peek_eq_head ctx.source

theorem dRem_eq (d : Detex) : dRem d = (dstream d).length := by
  unfold dRem dstream
  cases d.file_stack with
  | nil => rfl
  | cons ctx rest => exact CharSource.rem_eq ctx.source

theorem nextChar_cons {d : Detex} {c : Char} {t : List Char}
    (h : dstream d = c :: t) :
    (nextChar d).1 = some c ∧ dstream (nextChar d).2 = t ∧
    SameCore d (nextChar d).2 ∧ (nextChar d).2.output = d.output ∧
    (nextChar d).2.at_column_zero = d.at_column_zero := by
  cases hs : d.file_stack with
  | nil => simp [dstream, hs] at h
  | cons ctx rest =>
    have hst : ctx.source.stream = c :: t := by simpa [dstream, hs] using h
    obtain ⟨h1, h2⟩ := CharSource.next_of_stream_cons hst
    rcases hn : ctx.source.next with ⟨c?, s'⟩
    rw [hn] at h1 h2
    simp only at h1 h2
    subst h1
    simp [nextChar, hs, hn, dstream, SameCore, stackNames, h2]

theorem nextChar_nil {d : Detex} (h : dstream d = []) :
    nextChar d = (none, d) := by
  cases hs : d.file_stack with
  | nil => simp [nextChar, hs]
  | cons ctx rest =>
    have hst : ctx.source.stream = [] := by simpa [dstream, hs] using h
    have hn := CharSource.next_of_stream_nil hst
    simp [nextChar, hs, hn]
    rw [← hs]

theorem ungetChar_stream {d : Detex} (hne : d.file_stack ≠ []) (c : Char) :
    dstream (ungetChar c d) = c :: dstream d ∧ SameCore d (ungetChar c d) ∧
    (ungetChar c d).output = d.output ∧
    (ungetChar c d).at_column_zero = d.at_column_zero := by
  cases hs : d.file_stack with
  | nil => exact absurd hs hne
  | cons ctx rest =>
    simp [ungetChar, mapTop, hs, dstream, SameCore, stackNames,
          CharSource.stream_unget]

theorem bumpLine_stream (d : Detex) :
    dstream (bumpLine d) = dstream d ∧ (bumpLine d).output = d.output ∧
    SameCore d (bumpLine d) ∧ (bumpLine d).at_column_zero = true := by
  cases hs : d.file_stack with
  | nil => simp [bumpLine, mapTop, hs, dstream, SameCore, stackNames]
  | cons ctx rest =>
    simp [bumpLine, mapTop, hs, dstream, SameCore, stackNames,
          CharSource.stream_incrLine]

theorem topEof_iff (d : Detex) :
    topEof d = true ↔ (d.file_stack = [] ∨ dstream d = []) := by
  unfold topEof dstream
  cases hs : d.file_stack with
  | nil => simp
  | cons ctx rest => simp [CharSource.isEof_iff]

end Detex

/-! ## C7 — `peek_ahead` order of pushback characters -/

/-- C7: `peek_ahead` is claimed to return the characters successive
`next()` calls would return, pushback first with the most recently
pushed first.  Evaluating the code: after `unget('a')` then
`unget('b')`, the next two `next()` calls yield `'b'` then `'a'`, but
`peek_ahead(2)` returns `"ab"` — the pushback in the order it was
pushed, not in the order it will be read.  The in-code comment and doc
comment ("the next n characters") say read order was intended; the
`for i in (0..len).rev()` loop indexes `pushback[len-1-i]`, a double
reversal. -/
theorem c7_peekAheadOrderBug :
    CharSource.peekAhead
      (CharSource.unget 'b' (CharSource.unget 'a' (CharSource.new ""))) 2 =
      ['a', 'b'] ∧
    ((CharSource.unget 'b' (CharSource.unget 'a' (CharSource.new ""))).next).1 =
      some 'b' ∧
    ((((CharSource.unget 'b'
        (CharSource.unget 'a' (CharSource.new ""))).next).2).next).1 =
      some 'a' ∧
    (['a', 'b'] : List Char) ≠ ['b', 'a'] := by decide

/-! ## C2 — `\verb` and the unterminated-verb error -/

/-- C2 (failing part): the claim says end-of-input before the closing
delimiter aborts with the fatal unterminated-verb error.  Evaluating the
code on `\verb|abc` (end of input right after `c`, LaTeX mode active):
the run returns successfully with output `abc`; the `while let` loop
exits on `None` without raising the error (only a newline or NUL
raises it), contradicting the error message's own wording
("not complete before eof"), the spec, and the legacy scanner
detex.l:352-367 this arm cites. -/
theorem c2_verbEofNoError :
    (Detex.run (fun _ => none) 12
        (Detex.init { defaultOptions with latex := true } "f" "\\verb|abc")).map
      Detex.output = .ok "abc".data := by rfl

/-- C2 (newline part, for contrast): a newline before the closing
delimiter does abort with the fatal error, as the claim states. -/
theorem c2_verbNewlineError :
    Detex.run (fun _ => none) 12
        (Detex.init { defaultOptions with latex := true } "f" "\\verb|ab\ncd|") =
      .error "\\verb not complete before eof" := by rfl

/-! ## C8 — the source-location prefix -/

open Detex in
/-- C8 (amended): the prefix routine emits
`<filename>:<line>: ` only when the at-column-zero flag is set (with
source-location annotation on), clears the flag so a second call emits
nothing more, and each newline emission resets the flag — so the prefix
fires at most once per output line.  (The original claim's stronger
guarantee — that no output character precedes its line's prefix — fails:
see the counterexample.) -/
theorem c8_prefixDiscipline :
    (∀ d : Detex, d.at_column_zero = false → printPfx d = d) ∧
    (∀ d : Detex, d.opts.src_loc = true → d.at_column_zero = true →
      ( printPfx d).output = d.output ++
          (currentFilename d ++ ":" ++ Nat.repr (currentLine d) ++ ": ").data ∧
        ( printPfx d).at_column_zero = false) ∧
    (∀ d : Detex, printPfx ( printPfx d) = printPfx d) ∧
    (∀ d : Detex, d.opts.word = false → (lineBreak d).at_column_zero = true) := by
  refine ⟨?_, ?_, ?_, ?_⟩
  · intro d h
    simp [printPfx, h]
  · intro d h1 h2
    simp [printPfx, h1, h2]
  · intro d
    unfold printPfx
    split
    · simp
    · rfl
  · intro d h
    simp [lineBreak, h, bumpLine, mapTop]

open Detex in
/-- Witness for the amended C8 at a concrete state: with `-1` set, at
column zero, on file `f` line 1, the prefix routine emits `f:1: ` and a
second call emits nothing more. -/
theorem c8_prefixDiscipline_witness :
    ( printPfx (Detex.init { defaultOptions with src_loc := true } "f" "x")).output =
      (Detex.init { defaultOptions with src_loc := true } "f" "x").output ++
        ("f" ++ ":" ++ Nat.repr 1 ++ ": ").data ∧
    printPfx ( printPfx (Detex.init { defaultOptions with src_loc := true } "f" "x")) =
      printPfx (Detex.init { defaultOptions with src_loc := true } "f" "x") := by
  refine ⟨?_, c8_prefixDiscipline.2.2.1 _⟩
  exact (c8_prefixDiscipline.2.1 _ rfl rfl).1

open Detex in
/-- C8 (counterexample to the claim as stated): with source-location
annotation on, input `--x` produces output `-f:1: x` — the substituted
dash is written directly to the sink before the line's prefix fires, so
an output character does precede its line's prefix. -/
theorem c8_counterexample :
    (Detex.run (fun _ => none) 8
        (Detex.init { defaultOptions with src_loc := true } "f" "--x")).map
      Detex.output = .ok "-f:1: x".data ∧
    ("-f:1: x".data).take 5 ≠ "f:1: ".data := ⟨by rfl, by decide⟩

/-! ## C6 — brace counters saturate at zero -/

namespace Detex

@[simp] theorem nextChar_snd_opts (d : Detex) : (nextChar d).2.opts = d.opts := by
  unfold nextChar
  cases d.file_stack with
  | nil => rfl
  | cons ctx rest => rcases ctx.source.next with ⟨a, b⟩; rfl

@[simp] theorem nextChar_snd_state (d : Detex) : (nextChar d).2.state = d.state := by
  unfold nextChar
  cases d.file_stack with
  | nil => rfl
  | cons ctx rest => rcases ctx.source.next with ⟨a, b⟩; rfl

@[simp] theorem nextChar_snd_output (d : Detex) : (nextChar d).2.output = d.output := by
  unfold nextChar
  cases d.file_stack with
  | nil => rfl
  | cons ctx rest => rcases ctx.source.next with ⟨a, b⟩; rfl

@[simp] theorem nextChar_snd_warnings (d : Detex) :
    (nextChar d).2.warnings = d.warnings := by
  unfold nextChar
  cases d.file_stack with
  | nil => rfl
  | cons ctx rest => rcases ctx.source.next with ⟨a, b⟩; rfl

@[simp] theorem nextChar_snd_open (d : Detex) :
    (nextChar d).2.open_braces = d.open_braces := by
  unfold nextChar
  cases d.file_stack with
  | nil => rfl
  | cons ctx rest => rcases ctx.source.next with ⟨a, b⟩; rfl

@[simp] theorem nextChar_snd_args (d : Detex) :
    (nextChar d).2.args_count = d.args_count := by
  unfold nextChar
  cases d.file_stack with
  | nil => rfl
  | cons ctx rest => rcases ctx.source.next with ⟨a, b⟩; rfl

@[simp] theorem nextChar_snd_braces (d : Detex) :
    (nextChar d).2.current_braces_level = d.current_braces_level := by
  unfold nextChar
  cases d.file_stack with
  | nil => rfl
  | cons ctx rest => rcases ctx.source.next with ⟨a, b⟩; rfl

@[simp] theorem nextChar_snd_footnote (d : Detex) :
    (nextChar d).2.footnote_level = d.footnote_level := by
  unfold nextChar
  cases d.file_stack with
  | nil => rfl
  | cons ctx rest => rcases ctx.source.next with ⟨a, b⟩; rfl

@[simp] theorem nextChar_snd_stackLen (d : Detex) :
    (nextChar d).2.file_stack.length = d.file_stack.length := by
  unfold nextChar
  cases hs : d.file_stack with
  | nil => simp [hs]
  | cons ctx rest => rcases ctx.source.next with ⟨a, b⟩; simp

@[simp] theorem mapTop_opts (f : CharSource → CharSource) (d : Detex) :
    (mapTop f d).opts = d.opts := by
  unfold mapTop
  cases d.file_stack <;> rfl

@[simp] theorem mapTop_state (f : CharSource → CharSource) (d : Detex) :
    (mapTop f d).state = d.state := by
  unfold mapTop
  cases d.file_stack <;> rfl

@[simp] theorem mapTop_output (f : CharSource → CharSource) (d : Detex) :
    (mapTop f d).output = d.output := by
  unfold mapTop
  cases d.file_stack <;> rfl

@[simp] theorem mapTop_warnings (f : CharSource → CharSource) (d : Detex) :
    (mapTop f d).warnings = d.warnings := by
  unfold mapTop
  cases d.file_stack <;> rfl

@[simp] theorem mapTop_open (f : CharSource → CharSource) (d : Detex) :
    (mapTop f d).open_braces = d.open_braces := by
  unfold mapTop
  cases d.file_stack <;> rfl

@[simp] theorem mapTop_args (f : CharSource → CharSource) (d : Detex) :
    (mapTop f d).args_count = d.args_count := by
  unfold mapTop
  cases d.file_stack <;> rfl

@[simp] theorem mapTop_braces (f : CharSource → CharSource) (d : Detex) :
    (mapTop f d).current_braces_level = d.current_braces_level := by
  unfold mapTop
  cases d.file_stack <;> rfl

@[simp] theorem mapTop_footnote (f : CharSource → CharSource) (d : Detex) :
    (mapTop f d).footnote_level = d.footnote_level := by
  unfold mapTop
  cases d.file_stack <;> rfl

@[simp] theorem mapTop_stackLen (f : CharSource → CharSource) (d : Detex) :
    (mapTop f d).file_stack.length = d.file_stack.length := by
  unfold mapTop
  cases hs : d.file_stack with
  | nil => simp [hs]
  | cons ctx rest => simp

@[simp] theorem bumpLine_open (d : Detex) : (bumpLine d).open_braces = d.open_braces := by
  simp [bumpLine]

@[simp] theorem bumpLine_args (d : Detex) : (bumpLine d).args_count = d.args_count := by
  simp [bumpLine]

@[simp] theorem bumpLine_braces (d : Detex) :
    (bumpLine d).current_braces_level = d.current_braces_level := by
  simp [bumpLine]

@[simp] theorem bumpLine_state (d : Detex) : (bumpLine d).state = d.state := by
  simp [bumpLine]

end Detex

open Detex in
/-- C6: the brace counters are `usize` values (here `Nat`), hence never
negative; and the underflow-prone steps saturate: a Normal-state `}`
with the document brace counter at zero leaves it at zero; a `}` in the
kill-args (`LaMacro`) and strip-args (`LaMacro2`) states with the
per-argument open-brace counter at zero leaves it at zero; and the
strip-args `{` step that hands the final argument back to Normal (the
`wrapping_sub`/increment pair) also nets the counter back to zero. -/
theorem c6_braceSaturation :
    (∀ d : Detex, ∀ d' r, d.state = .Normal → dstream d = '}' :: r →
      d.current_braces_level = 0 → processNormal d = .ok d' →
      d'.current_braces_level = 0 ∧ (0 : Int) ≤ (d'.current_braces_level : Int)) ∧
    (∀ d : Detex, ∀ d' r, dstream d = '}' :: r → d.open_braces = 0 →
      processLaKill d = .ok d' →
      d'.open_braces = 0 ∧ (0 : Int) ≤ (d'.open_braces : Int)) ∧
    (∀ d : Detex, ∀ d' r, dstream d = '}' :: r → d.open_braces = 0 →
      processLaStrip d = .ok d' → d'.open_braces = 0) ∧
    (∀ d : Detex, ∀ d' r, dstream d = '{' :: r → d.open_braces = 0 →
      d.args_count ≤ 1 → processLaStrip d = .ok d' →
      d'.open_braces = 0 ∧ d'.state = .Normal) := by
  refine ⟨?_, ?_, ?_, ?_⟩
  · intro d d' r hst hstream hz hp
    obtain ⟨h1, -, -, -, -⟩ := nextChar_cons hstream
    rcases hq : nextChar d with ⟨c?, d1⟩
    rw [hq] at h1
    simp only at h1
    subst h1
    unfold processNormal at hp
    rw [hq] at hp
    have hb : d1.current_braces_level = 0 := by
      have h := nextChar_snd_braces d
      rw [hq] at h
      exact h.trans hz
    simp only [hb] at hp
    simp at hp
    split at hp <;> (cases hp; simp [hb])
  · intro d d' r hstream hz hp
    obtain ⟨h1, -, -, -, -⟩ := nextChar_cons hstream
    rcases hq : nextChar d with ⟨c?, d1⟩
    rw [hq] at h1
    simp only at h1
    subst h1
    unfold processLaKill at hp
    rw [hq] at hp
    have hb : d1.open_braces = 0 := by
      have h := nextChar_snd_open d
      rw [hq] at h
      exact h.trans hz
    simp [hb] at hp
    split at hp
    · split at hp <;> (cases hp; simp)
    · cases hp
      simp [hb]
  · intro d d' r hstream hz hp
    obtain ⟨h1, -, -, -, -⟩ := nextChar_cons hstream
    rcases hq : nextChar d with ⟨c?, d1⟩
    rw [hq] at h1
    simp only at h1
    subst h1
    unfold processLaStrip at hp
    rw [hq] at hp
    have hb : d1.open_braces = 0 := by
      have h := nextChar_snd_open d
      rw [hq] at h
      exact h.trans hz
    simp [hb] at hp
    cases hp
    simp [hb]
  · intro d d' r hstream hz hargs hp
    obtain ⟨h1, -, -, -, -⟩ := nextChar_cons hstream
    rcases hq : nextChar d with ⟨c?, d1⟩
    rw [hq] at h1
    simp only at h1
    subst h1
    unfold processLaStrip at hp
    rw [hq] at hp
    have hb : d1.open_braces = 0 := by
      have h := nextChar_snd_open d
      rw [hq] at h
      exact h.trans hz
    have ha0 : d1.args_count - 1 = 0 := by
      have h := nextChar_snd_args d
      rw [hq] at h
      have h2 : d1.args_count = d.args_count := h
      omega
    simp [hb, ha0, usizeMod] at hp
    cases hp
    exact ⟨rfl, rfl⟩

open Detex in
/-- Witness for C6 at concrete states with the counters at zero. -/
theorem c6_braceSaturation_witness :
    (∃ d', processNormal (Detex.init defaultOptions "f" "\x7d") = .ok d' ∧
      d'.current_braces_level = 0 ∧ (0 : Int) ≤ (d'.current_braces_level : Int)) ∧
    (∃ d', processLaStrip
        { Detex.init defaultOptions "f" "{x}" with state := .LaStrip, args_count := 1 } =
          .ok d' ∧ d'.open_braces = 0 ∧ d'.state = .Normal) := by
  constructor
  · obtain ⟨d', hp⟩ : ∃ d',
        processNormal (Detex.init defaultOptions "f" "\x7d") = .ok d' := by
      have hok : (processNormal (Detex.init defaultOptions "f" "\x7d")).isOk = true := by
        decide
      cases hcase : processNormal (Detex.init defaultOptions "f" "\x7d") with
      | error e => rw [hcase] at hok; exact Bool.noConfusion hok
      | ok v => exact ⟨v, rfl⟩
    exact ⟨d', hp, c6_braceSaturation.1 _ d' [] rfl (by decide) rfl hp⟩
  · obtain ⟨d', hp⟩ : ∃ d',
        processLaStrip { Detex.init defaultOptions "f" "{x}" with
          state := .LaStrip, args_count := 1 } = .ok d' := by
      have hok : (processLaStrip { Detex.init defaultOptions "f" "{x}" with
          state := .LaStrip, args_count := 1 }).isOk = true := by decide
      cases hcase : processLaStrip { Detex.init defaultOptions "f" "{x}" with
          state := .LaStrip, args_count := 1 } with
      | error e => rw [hcase] at hok; exact Bool.noConfusion hok
      | ok v => exact ⟨v, rfl⟩
    exact ⟨d', hp,
      c6_braceSaturation.2.2.2 _ d' "x\x7d".data (by decide) rfl (by decide) hp⟩

/-! ## Characterizations of the tokenizer primitives on the stream -/

namespace Detex

theorem peekChar_of_cons {d : Detex} {c : Char} {t : List Char}
    (h : dstream d = c :: t) : peekChar d = some c := by
  rw [peekChar_eq_head, h]
  rfl

theorem stack_ne_nil_of_dstream_cons {d : Detex} {c : Char} {t : List Char}
    (h : dstream d = c :: t) : d.file_stack ≠ [] := by
  intro hcon
  rw [dstream, hcon] at h
  cases h

/-- `read_command_name` on a stream `w ++ r`, where `w` is made of
command characters and `r` does not begin with one, consumes exactly
`w`. -/
theorem readCmdAux_spec :
    ∀ (fuel : Nat) (w r : List Char) (d : Detex) (acc : String),
      dstream d = w ++ r → (∀ x ∈ w, isCmdChar x = true) →
      (∀ x, r.head? = some x → isCmdChar x = false) →
      (w ++ r).length ≤ fuel →
      (readCmdAux fuel d acc).1 = acc ++ String.mk w ∧
      dstream (readCmdAux fuel d acc).2 = r ∧
      SameCore d (readCmdAux fuel d acc).2 ∧
      (readCmdAux fuel d acc).2.output = d.output := by
  intro fuel
  induction fuel with
  | zero =>
    intro w r d acc hst hw hr hlen
    simp at hlen
    obtain ⟨hw0, hr0⟩ := hlen
    subst hw0
    subst hr0
    simp at hst
    refine ⟨?_, ?_, SameCore.rfl, rfl⟩
    · show acc = acc ++ String.mk []
      apply String.ext
      simp
    · show dstream d = []
      exact hst
  | succ fuel ih =>
    intro w r d acc hst hw hr hlen
    cases w with
    | nil =>
      simp at hst
      have hres : readCmdAux (fuel + 1) d acc = (acc, d) := by
        unfold readCmdAux
        rw [peekChar_eq_head, hst]
        cases r with
        | nil => rfl
        | cons x rt => simp [hr x rfl]
      rw [hres]
      refine ⟨?_, hst, SameCore.rfl, rfl⟩
      apply String.ext
      simp
    | cons a w' =>
      have ha := hw a (by simp)
      have hstA : dstream d = a :: (w' ++ r) := by simpa using hst
      have hres : readCmdAux (fuel + 1) d acc =
          readCmdAux fuel (nextChar d).2 (acc.push a) := by
        unfold readCmdAux
        rw [peekChar_eq_head, hstA]
        simp [ha]
        cases fuel <;> rfl
      obtain ⟨h1, h2, hcore, hout, hcol⟩ := nextChar_cons hstA
      have hlen' : (w' ++ r).length ≤ fuel := by
        simp at hlen ⊢
        omega
      obtain ⟨q1, q2, q3, q4⟩ :=
        ih w' r (nextChar d).2 (acc.push a) h2
          (fun x hx => hw x (by simp [hx])) hr hlen'
      rw [hres]
      refine ⟨?_, q2, hcore.trans q3, by rw [q4, hout]⟩
      rw [q1]
      apply String.ext
      simp

/-- `read_command_name` consumes exactly the leading run of command
characters. -/
theorem readCommandName_spec {d : Detex} {w r : List Char}
    (hst : dstream d = w ++ r) (hw : ∀ x ∈ w, isCmdChar x = true)
    (hr : ∀ x, r.head? = some x → isCmdChar x = false) :
    (readCommandName d).1 = String.mk w ∧
    dstream (readCommandName d).2 = r ∧
    SameCore d (readCommandName d).2 ∧
    (readCommandName d).2.output = d.output := by
  have h := readCmdAux_spec (dRem d) w r d "" hst hw hr
    (by rw [dRem_eq, hst])
  obtain ⟨h1, h2, h3, h4⟩ := h
  refine ⟨?_, h2, h3, h4⟩
  rw [readCommandName] at *
  rw [h1]
  apply String.ext
  simp [String.mk]

theorem foldlUnget_spec :
    ∀ (l : List Char) (d : Detex), d.file_stack ≠ [] →
      dstream (l.foldl (fun d c => ungetChar c d) d) = l.reverse ++ dstream d ∧
      SameCore d (l.foldl (fun d c => ungetChar c d) d) ∧
      (l.foldl (fun d c => ungetChar c d) d).output = d.output := by
  intro l
  induction l with
  | nil => intro d hne; exact ⟨by simp, SameCore.rfl, rfl⟩
  | cons a t ih =>
    intro d hne
    obtain ⟨u1, u2, u3, u4⟩ := ungetChar_stream hne a
    obtain ⟨q1, q2, q3⟩ := ih (ungetChar a d) (stack_ne_nil_of_sameCore u2 hne)
    refine ⟨?_, u2.trans q2, by simp [List.foldl_cons, q3, u3]⟩
    simp only [List.foldl_cons]
    rw [q1, u1]
    simp

/-- `ungetAll` restores the given characters at the front of the
stream. -/
theorem ungetAll_spec (m : List Char) (d : Detex) (hne : d.file_stack ≠ []) :
    dstream (ungetAll m d) = m ++ dstream d ∧
    SameCore d (ungetAll m d) ∧ (ungetAll m d).output = d.output := by
  obtain ⟨q1, q2, q3⟩ := foldlUnget_spec m.reverse d hne
  exact ⟨by rw [ungetAll, q1]; simp, q2, q3⟩

/-- `try_match` on a stream that begins with the pattern consumes
exactly the pattern and reports success. -/
theorem tryMatchAux_success :
    ∀ (pat : List Char) (matched : List Char) (d : Detex) (r : List Char),
      dstream d = pat ++ r →
      (tryMatchAux pat matched d).1 = true ∧
      dstream (tryMatchAux pat matched d).2 = r ∧
      SameCore d (tryMatchAux pat matched d).2 ∧
      (tryMatchAux pat matched d).2.output = d.output := by
  intro pat
  induction pat with
  | nil =>
    intro matched d r h
    simp at h
    exact ⟨rfl, h, SameCore.rfl, rfl⟩
  | cons e ps ih =>
    intro matched d r h
    have hstA : dstream d = e :: (ps ++ r) := by simpa using h
    obtain ⟨h1, h2, hcore, hout, hcol⟩ := nextChar_cons hstA
    have hres : tryMatchAux (e :: ps) matched d =
        tryMatchAux ps (matched ++ [e]) (nextChar d).2 := by
      unfold tryMatchAux
      rcases hq : nextChar d with ⟨c?, d1⟩
      rw [hq] at h1
      simp only at h1
      subst h1
      simp
      cases ps <;> rfl
    rw [hres]
    obtain ⟨q1, q2, q3, q4⟩ := ih (matched ++ [e]) (nextChar d).2 r h2
    exact ⟨q1, q2, hcore.trans q3, by rw [q4, hout]⟩

theorem tryMatch_success {pat r : List Char} {d : Detex}
    (h : dstream d = pat ++ r) :
    (tryMatch pat d).1 = true ∧ dstream (tryMatch pat d).2 = r ∧
    SameCore d (tryMatch pat d).2 ∧ (tryMatch pat d).2.output = d.output :=
  tryMatchAux_success pat [] d r h

/-- `try_match` on a stream that does not begin with the pattern pushes
everything back and reports failure. -/
theorem tryMatchAux_fail :
    ∀ (pat : List Char) (matched : List Char) (d : Detex),
      d.file_stack ≠ [] → (dstream d).take pat.length ≠ pat →
      (tryMatchAux pat matched d).1 = false ∧
      dstream (tryMatchAux pat matched d).2 = matched ++ dstream d ∧
      SameCore d (tryMatchAux pat matched d).2 ∧
      (tryMatchAux pat matched d).2.output = d.output := by
  intro pat
  induction pat with
  | nil => intro matched d hne h; simp at h
  | cons e ps ih =>
    intro matched d hne h
    cases hst : dstream d with
    | nil =>
      have hres : tryMatchAux (e :: ps) matched d = (false, ungetAll matched d) := by
        unfold tryMatchAux
        rw [nextChar_nil hst]
      obtain ⟨u1, u2, u3⟩ := ungetAll_spec matched d hne
      rw [hres]
      exact ⟨rfl, by rw [u1, hst], u2, u3⟩
    | cons c t =>
      obtain ⟨h1, h2, hcore, hout, hcol⟩ := nextChar_cons hst
      by_cases hce : c = e
      · subst hce
        have hres : tryMatchAux (c :: ps) matched d =
            tryMatchAux ps (matched ++ [c]) (nextChar d).2 := by
          unfold tryMatchAux
          rcases hq : nextChar d with ⟨c?, d1⟩
          rw [hq] at h1
          simp only at h1
          subst h1
          simp
          cases ps <;> rfl
        have ht : (dstream (nextChar d).2).take ps.length ≠ ps := by
          rw [h2]
          intro hcon
          apply h
          rw [hst]
          simp [hcon]
        obtain ⟨q1, q2, q3, q4⟩ := ih (matched ++ [c]) (nextChar d).2
          (stack_ne_nil_of_sameCore hcore hne) ht
        rw [hres]
        refine ⟨q1, ?_, hcore.trans q3, by rw [q4, hout]⟩
        rw [q2, h2]
        simp
      · have hres : tryMatchAux (e :: ps) matched d =
            (false, ungetAll matched (ungetChar c (nextChar d).2)) := by
          unfold tryMatchAux
          rcases hq : nextChar d with ⟨c?, d1⟩
          rw [hq] at h1
          simp only at h1
          subst h1
          simp [hce]
        have hne1 : (nextChar d).2.file_stack ≠ [] :=
          stack_ne_nil_of_sameCore hcore hne
        obtain ⟨u1, u2, u3, u4⟩ := ungetChar_stream hne1 c
        obtain ⟨v1, v2, v3⟩ := ungetAll_spec matched (ungetChar c (nextChar d).2)
          (stack_ne_nil_of_sameCore u2 hne1)
        rw [hres]
        refine ⟨rfl, ?_, (hcore.trans u2).trans v2, by rw [v3, u3, hout]⟩
        rw [v1, u1, h2]

theorem tryMatch_fail {pat : List Char} {d : Detex} (hne : d.file_stack ≠ [])
    (h : (dstream d).take pat.length ≠ pat) :
    (tryMatch pat d).1 = false ∧ dstream (tryMatch pat d).2 = dstream d ∧
    SameCore d (tryMatch pat d).2 ∧ (tryMatch pat d).2.output = d.output := by
  obtain ⟨q1, q2, q3, q4⟩ := tryMatchAux_fail pat [] d hne h
  exact ⟨q1, by rw [tryMatch, q2]; rfl, q3, q4⟩

end Detex

open Detex in
/-- C9: with LaTeX mode inactive, a `\verb` command consumes only the
command name: no delimiter is read, nothing is emitted, no error is
raised, the scanner state is unchanged, and everything after the name
(the delimiter included) is left in the stream for Normal-state
scanning. -/
theorem c9_verbNonLatex (d : Detex) (rest : List Char)
    (hlatex : d.opts.isLatex = false)
    (hst : dstream d = '\\' :: ("verb".data ++ rest))
    (hrest : ∀ x, rest.head? = some x → isCmdChar x = false) :
    ∃ d', processNormal d = .ok d' ∧ d'.output = d.output ∧
      dstream d' = rest ∧ SameCore d d' := by
  obtain ⟨h1, h2, hcore, hout, hcol⟩ := nextChar_cons hst
  rcases hq : nextChar d with ⟨c?, d1⟩
  rw [hq] at h1 h2 hcore hout
  simp only at h1 h2 hcore hout
  subst h1
  have hpn : processNormal d = processBackslash d1 := by
    unfold processNormal
    rw [hq]
    rfl
  obtain ⟨r1, r2, r3, r4⟩ := @readCommandName_spec d1 "verb".data
    rest h2 (by decide) hrest
  rcases hrc : readCommandName d1 with ⟨cmd, d2⟩
  rw [hrc] at r1 r2 r3 r4
  simp only at r1 r2 r3 r4
  have hcmd : cmd = "verb" := r1
  subst hcmd
  have hlatex2 : d2.opts.isLatex = false := by
    rw [r3.1, hcore.1]
    exact hlatex
  have hpb : processBackslash d1 = .ok d2 := by
    unfold processBackslash
    rw [hrc]
    show (if d2.opts.isLatex = true then
        (match nextChar d2 with
         | (some delim, d) =>
           if delim < ' ' then Except.error "\\verb not complete before eof"
           else verbLoopAux (dRem d) delim d
         | (none, d) => Except.ok d)
      else Except.ok d2) = Except.ok d2
    rw [hlatex2]
    simp
  refine ⟨d2, hpn.trans hpb, by rw [r4, hout], r2, hcore.trans r3⟩

open Detex in
/-- Witness for C9: TeX-mode scan of `\verb|x` consumes just `verb`. -/
theorem c9_verbNonLatex_witness :
    ∃ d', processNormal (Detex.init defaultOptions "f" "\\verb|x") = .ok d' ∧
      d'.output = (Detex.init defaultOptions "f" "\\verb|x").output ∧
      dstream d' = "|x".data ∧
      SameCore (Detex.init defaultOptions "f" "\\verb|x") d' :=
  c9_verbNonLatex _ "|x".data (by decide) (by decide) (by decide)

/-- The character class of `process_normal`'s `{`-dimension number run:
digits, dots and signs. -/
def numChar (c : Char) : Bool :=
  rustIsAsciiDigit c || c = '.' || c = '+' || c = '-'

theorem head?_dropWhile_not {p : Char → Bool} :
    ∀ (l : List Char) (x : Char), (l.dropWhile p).head? = some x → p x = false := by
  intro l
  induction l with
  | nil => intro x h; cases h
  | cons a t ih =>
    intro x h
    by_cases hp : p a
    · rw [List.dropWhile_cons_of_pos hp] at h
      exact ih x h
    · rw [List.dropWhile_cons_of_neg hp] at h
      simp at h
      subst h
      simpa using hp

namespace Detex

/-- `numRunAux` consumes exactly the leading run of number
characters. -/
theorem numRunAux_spec :
    ∀ (fuel : Nat) (u r : List Char) (d : Detex) (acc : List Char),
      dstream d = u ++ r → (∀ x ∈ u, numChar x = true) →
      (∀ x, r.head? = some x → numChar x = false) →
      (u ++ r).length ≤ fuel →
      (numRunAux fuel d acc).1 = acc ++ u ∧
      dstream (numRunAux fuel d acc).2 = r ∧
      SameCore d (numRunAux fuel d acc).2 ∧
      (numRunAux fuel d acc).2.output = d.output := by
  intro fuel
  induction fuel with
  | zero =>
    intro u r d acc hst hu hr hlen
    simp at hlen
    obtain ⟨hu0, hr0⟩ := hlen
    subst hu0
    subst hr0
    simp at hst
    exact ⟨by simp [numRunAux], hst, SameCore.rfl, rfl⟩
  | succ fuel ih =>
    intro u r d acc hst hu hr hlen
    cases u with
    | nil =>
      simp at hst
      have hres : numRunAux (fuel + 1) d acc = (acc, d) := by
        simp only [numRunAux]
        rw [peekChar_eq_head, hst]
        cases r with
        | nil => rfl
        | cons x rt =>
          have hx : numChar x = false := hr x rfl
          unfold numChar at hx
          simp at hx
          obtain ⟨⟨⟨hd, h1⟩, h2⟩, h3⟩ := hx
          simp [hd, h1, h2, h3]
      rw [hres]
      exact ⟨by simp, hst, SameCore.rfl, rfl⟩
    | cons a u' =>
      have ha := hu a (by simp)
      have hstA : dstream d = a :: (u' ++ r) := by simpa using hst
      have hcond : ((rustIsAsciiDigit a = true ∨ a = '.') ∨ a = '+') ∨ a = '-' := by
        unfold numChar at ha
        simpa using ha
      have hres : numRunAux (fuel + 1) d acc =
          numRunAux fuel (nextChar d).2 (acc ++ [a]) := by
        simp only [numRunAux]
        rw [peekChar_eq_head, hstA]
        simp [hcond]
      obtain ⟨h1, h2, hcore, hout, hcol⟩ := nextChar_cons hstA
      have hlen' : (u' ++ r).length ≤ fuel := by
        simp at hlen ⊢
        omega
      obtain ⟨q1, q2, q3, q4⟩ :=
        ih u' r (nextChar d).2 (acc ++ [a]) h2 (fun x hx => hu x (by simp [hx]))
          hr hlen'
      rw [hres]
      refine ⟨?_, q2, hcore.trans q3, by rw [q4, hout]⟩
      rw [q1]
      simp

end Detex

open Detex in
/-- C10 (completion case): in Normal state a `{` followed by a nonempty
run of digit/sign/dot characters and then `pt}` is consumed whole — no
output, no change to the brace counter or any other scanner field —
wherever it occurs, with no reference to `\begin{minipage}`. -/
theorem c10_ptHackConsumes (d : Detex) (num rest : List Char)
    (hne : num ≠ []) (hall : ∀ x ∈ num, numChar x = true)
    (hst : dstream d = '{' :: (num ++ ('p' :: 't' :: '}' :: rest))) :
    ∃ d', processNormal d = .ok d' ∧ d'.output = d.output ∧
      dstream d' = rest ∧ SameCore d d' := by
  obtain ⟨h1, h2, hcore, hout, hcol⟩ := nextChar_cons hst
  rcases hq : nextChar d with ⟨c?, d1⟩
  rw [hq] at h1 h2 hcore hout
  simp only at h1 h2 hcore hout
  subst h1
  cases num with
  | nil => exact absurd rfl hne
  | cons n0 nums =>
  have hpeek : peekChar d1 = some n0 := by
    rw [peekChar_eq_head, h2]
    rfl
  have hn0 := hall n0 (by simp)
  have hguard : ((rustIsAsciiDigit n0 = true ∨ n0 = '+') ∨ n0 = '-') ∨ n0 = '.' := by
    unfold numChar at hn0
    simp at hn0
    tauto
  obtain ⟨q1, q2, q3, q4⟩ := numRunAux_spec (dRem d1) (n0 :: nums)
    ('p' :: 't' :: '}' :: rest) d1 [] h2 hall
    (by intro x hx; cases hx; decide) (by rw [dRem_eq, h2])
  rcases hnr : numRunAux (dRem d1) d1 [] with ⟨consumed, d2⟩
  rw [hnr] at q1 q2 q3 q4
  simp only at q1 q2 q3 q4
  have hcons : consumed = n0 :: nums := by simpa using q1
  obtain ⟨t1, t2, t3, t4⟩ := @tryMatch_success
    ['p', 't'] ('}' :: rest) d2 q2
  rcases htm : tryMatch ['p', 't'] d2 with ⟨ptm, d3⟩
  rw [htm] at t1 t2 t3 t4
  simp only at t1 t2 t3 t4
  subst t1
  have hpeek3 : peekChar d3 = some '}' := by
    rw [peekChar_eq_head, t2]
    rfl
  obtain ⟨f1, f2, fcore, fout, fcol⟩ := nextChar_cons t2
  have hpn : processNormal d = .ok (nextChar d3).2 := by
    unfold processNormal
    rw [hq]
    simp [hpeek, hguard, hnr, hcons, htm, hpeek3]
  refine ⟨(nextChar d3).2, hpn, ?_, f2, ?_⟩
  · rw [fout, t4, q4, hout]
  · exact ((hcore.trans q3).trans t3).trans fcore

open Detex in
/-- Witness for the completion case of C10: `{300pt}` in the middle of
plain text is swallowed whole. -/
theorem c10_ptHackConsumes_witness :
    ∃ d', processNormal (Detex.init defaultOptions "f" "{300pt}x") = .ok d' ∧
      d'.output = (Detex.init defaultOptions "f" "{300pt}x").output ∧
      dstream d' = "x".data ∧
      SameCore (Detex.init defaultOptions "f" "{300pt}x") d' :=
  c10_ptHackConsumes _ "300".data "x".data (by decide) (by decide) (by decide)

open Detex in
/-- C10 (non-completion case): when the `{<number>pt}` pattern does not
complete, every character of lookahead beyond the `{` is pushed back (the
stream after the step is exactly what followed the `{`) and the `{`
increments the brace counter by one, leaving every other scanner field
and the output unchanged. -/
theorem c10_ptHackRestores (d : Detex) (t : List Char)
    (hst : dstream d = '{' :: t)
    (hfail : ¬(t.takeWhile numChar ≠ [] ∧
      (t.dropWhile numChar).take 2 = ['p', 't'] ∧
      ((t.dropWhile numChar).drop 2).head? = some '}')) :
    ∃ d', processNormal d = .ok d' ∧ d'.output = d.output ∧
      dstream d' = t ∧
      d'.current_braces_level = d.current_braces_level + 1 ∧
      d'.state = d.state ∧ d'.opts = d.opts ∧
      d'.footnote_level = d.footnote_level ∧
      d'.open_braces = d.open_braces ∧ d'.args_count = d.args_count ∧
      d'.warnings = d.warnings ∧ stackNames d' = stackNames d := by
  obtain ⟨h1, h2, hcore, hout, hcol⟩ := nextChar_cons hst
  rcases hq : nextChar d with ⟨c?, d1⟩
  rw [hq] at h1 h2 hcore hout
  simp only at h1 h2 hcore hout
  subst h1
  obtain ⟨e1, e2, e3, e4, e5, e6, e7, e8, e9⟩ := hcore
  cases ht : t with
  | nil =>
    subst ht
    have hpeek : peekChar d1 = none := by
      rw [peekChar_eq_head, h2]
      rfl
    have hpn : processNormal d =
        .ok { d1 with current_braces_level := d1.current_braces_level + 1 } := by
      unfold processNormal
      rw [hq]
      simp [hpeek]
    refine ⟨_, hpn, hout, h2, by rw [e7], e2, e1, e8, e5, e6, e3, e9⟩
  | cons x t' =>
    subst ht
    have hne1 : d1.file_stack ≠ [] := stack_ne_nil_of_dstream_cons h2
    have hpeek : peekChar d1 = some x := by
      rw [peekChar_eq_head, h2]
      rfl
    by_cases hx : numChar x = true
    · -- the number run is nonempty; the failure is past it
      have hguard : ((rustIsAsciiDigit x = true ∨ x = '+') ∨ x = '-') ∨ x = '.' := by
        unfold numChar at hx
        simp at hx
        tauto
      set u := (x :: t').takeWhile numChar with hu
      set v := (x :: t').dropWhile numChar with hv
      have huv : u ++ v = x :: t' :=
        @List.takeWhile_append_dropWhile _ numChar (x :: t')
      have hust : dstream d1 = u ++ v := by rw [huv]; exact h2
      have hu_ne : u ≠ [] := by
        rw [hu, List.takeWhile_cons_of_pos hx]
        simp
      obtain ⟨q1, q2, q3, q4⟩ := numRunAux_spec (dRem d1) u v d1 [] hust
        (fun y hy => List.mem_takeWhile_imp hy)
        (fun y hy => head?_dropWhile_not _ y (hv ▸ hy))
        (by rw [dRem_eq, hust])
      rcases hnr : numRunAux (dRem d1) d1 [] with ⟨consumed, d2⟩
      rw [hnr] at q1 q2 q3 q4
      simp only at q1 q2 q3 q4
      have hcons : consumed = u := by simpa using q1
      subst hcons
      have hne2 : d2.file_stack ≠ [] := stack_ne_nil_of_sameCore q3 hne1
      by_cases hpt : v.take 2 = ['p', 't']
      · -- `pt` matches, so the `}` must be missing
        have hvsplit : v = 'p' :: 't' :: v.drop 2 := by
          conv_lhs => rw [← List.take_append_drop 2 v, hpt]
          rfl
        have hd2 : dstream d2 = ['p', 't'] ++ v.drop 2 := by
          rw [q2]
          conv_lhs => rw [hvsplit]
          rfl
        obtain ⟨t1, t2, t3, t4⟩ := @tryMatch_success
          ['p', 't'] (v.drop 2) d2 hd2
        rcases htm : tryMatch ['p', 't'] d2 with ⟨ptm, d3⟩
        rw [htm] at t1 t2 t3 t4
        simp only at t1 t2 t3 t4
        subst t1
        have hnz : ¬ (v.drop 2).head? = some '}' := fun hcon =>
          hfail ⟨hu_ne, hpt, hcon⟩
        have hpeek3 : ¬ peekChar d3 = some '}' := by
          rw [peekChar_eq_head, t2]
          exact hnz
        have hne3 : d3.file_stack ≠ [] := stack_ne_nil_of_sameCore t3 hne2
        obtain ⟨w1, w2, w3, w4⟩ := ungetChar_stream hne3 't'
        have hne4 : (ungetChar 't' d3).file_stack ≠ [] :=
          stack_ne_nil_of_sameCore w2 hne3
        obtain ⟨y1, y2, y3, y4⟩ := ungetChar_stream hne4 'p'
        have hne5 : (ungetChar 'p' (ungetChar 't' d3)).file_stack ≠ [] :=
          stack_ne_nil_of_sameCore y2 hne4
        obtain ⟨z1, z2, z3⟩ := ungetAll_spec u (ungetChar 'p' (ungetChar 't' d3)) hne5
        have hpn : processNormal d = .ok
            { ungetAll u (ungetChar 'p' (ungetChar 't' d3)) with
              current_braces_level :=
                (ungetAll u (ungetChar 'p' (ungetChar 't' d3))).current_braces_level + 1 } := by
          unfold processNormal
          rw [hq]
          simp [hpeek, hguard, hnr, htm, hpeek3]
        obtain ⟨g1, g2, g3, g4, g5, g6, g7, g8, g9⟩ :=
          ((q3.trans t3).trans (w2.trans y2)).trans z2
        refine ⟨_, hpn, ?_, ?_, ?_, ?_, ?_, ?_, ?_, ?_, ?_, ?_⟩
        · show (ungetAll u (ungetChar 'p' (ungetChar 't' d3))).output = d.output
          rw [z3, y3, w3, t4, q4, hout]
        · show dstream (ungetAll u (ungetChar 'p' (ungetChar 't' d3))) = x :: t'
          rw [z1, y1, w1, t2, ← hvsplit, huv]
        · show (ungetAll u (ungetChar 'p' (ungetChar 't' d3))).current_braces_level + 1
            = d.current_braces_level + 1
          rw [g7, e7]
        · exact g2.trans e2
        · exact g1.trans e1
        · exact g8.trans e8
        · exact g5.trans e5
        · exact g6.trans e6
        · exact g3.trans e3
        · show stackNames { ungetAll u (ungetChar 'p' (ungetChar 't' d3)) with
            current_braces_level := _ } = stackNames d
          rw [show stackNames { ungetAll u (ungetChar 'p' (ungetChar 't' d3)) with
            current_braces_level :=
              (ungetAll u (ungetChar 'p' (ungetChar 't' d3))).current_braces_level + 1 }
            = stackNames (ungetAll u (ungetChar 'p' (ungetChar 't' d3))) from rfl]
          rw [g9, e9]
      · -- `pt` does not match: try_match restores everything
        obtain ⟨t1, t2, t3, t4⟩ := @tryMatch_fail ['p', 't'] d2 hne2
          (by rw [q2]; exact hpt)
        rcases htm : tryMatch ['p', 't'] d2 with ⟨ptm, d3⟩
        rw [htm] at t1 t2 t3 t4
        simp only at t1 t2 t3 t4
        subst t1
        have hne3 : d3.file_stack ≠ [] := stack_ne_nil_of_sameCore t3 hne2
        obtain ⟨z1, z2, z3⟩ := ungetAll_spec u d3 hne3
        have hpn : processNormal d = .ok
            { ungetAll u d3 with current_braces_level :=
                (ungetAll u d3).current_braces_level + 1 } := by
          unfold processNormal
          rw [hq]
          simp [hpeek, hguard, hnr, htm]
        obtain ⟨g1, g2, g3, g4, g5, g6, g7, g8, g9⟩ := (q3.trans t3).trans z2
        refine ⟨_, hpn, ?_, ?_, ?_, ?_, ?_, ?_, ?_, ?_, ?_, ?_⟩
        · show (ungetAll u d3).output = d.output
          rw [z3, t4, q4, hout]
        · show dstream (ungetAll u d3) = x :: t'
          rw [z1, t2, q2, huv]
        · show (ungetAll u d3).current_braces_level + 1 = d.current_braces_level + 1
          rw [g7, e7]
        · exact g2.trans e2
        · exact g1.trans e1
        · exact g8.trans e8
        · exact g5.trans e5
        · exact g6.trans e6
        · exact g3.trans e3
        · show stackNames { ungetAll u d3 with current_braces_level := _ } = stackNames d
          rw [show stackNames { ungetAll u d3 with current_braces_level :=
              (ungetAll u d3).current_braces_level + 1 }
            = stackNames (ungetAll u d3) from rfl]
          rw [g9, e9]
    · -- the very first character fails the number-run guard
      have hx' : numChar x = false := by simpa using hx
      unfold numChar at hx'
      simp at hx'
      obtain ⟨⟨⟨hd, h1'⟩, h2'⟩, h3'⟩ := hx'
      have hpn : processNormal d =
          .ok { d1 with current_braces_level := d1.current_braces_level + 1 } := by
        unfold processNormal
        rw [hq]
        simp [hpeek, hd, h1', h2', h3']
      refine ⟨_, hpn, hout, ?_, ?_, ?_, ?_, ?_, ?_, ?_, ?_, ?_⟩
      · show dstream d1 = x :: t'
        exact h2
      · show d1.current_braces_level + 1 = d.current_braces_level + 1
        rw [e7]
      · exact e2
      · exact e1
      · exact e8
      · exact e5
      · exact e6
      · exact e3
      · show stackNames { d1 with current_braces_level := _ } = stackNames d
        rw [show stackNames { d1 with current_braces_level :=
            d1.current_braces_level + 1 } = stackNames d1 from rfl]
        exact e9

open Detex in
/-- Witness for the non-completion case of C10: `{300px...` pushes the
lookahead back and counts the brace. -/
theorem c10_ptHackRestores_witness :
    ∃ d', processNormal (Detex.init defaultOptions "f" "{300px}") = .ok d' ∧
      d'.output = (Detex.init defaultOptions "f" "{300px}").output ∧
      dstream d' = "300px\x7d".data ∧
      d'.current_braces_level =
        (Detex.init defaultOptions "f" "{300px}").current_braces_level + 1 ∧
      d'.state = (Detex.init defaultOptions "f" "{300px}").state ∧
      d'.opts = (Detex.init defaultOptions "f" "{300px}").opts ∧
      d'.footnote_level = (Detex.init defaultOptions "f" "{300px}").footnote_level ∧
      d'.open_braces = (Detex.init defaultOptions "f" "{300px}").open_braces ∧
      d'.args_count = (Detex.init defaultOptions "f" "{300px}").args_count ∧
      d'.warnings = (Detex.init defaultOptions "f" "{300px}").warnings ∧
      stackNames d' = stackNames (Detex.init defaultOptions "f" "{300px}") :=
  c10_ptHackRestores _ "300px\x7d".data (by decide) (by decide)

/-! ## C4 — punctuation substitutions in Normal state -/

namespace Detex

theorem sameCore_setOutput (d : Detex) (out : List Char) :
    SameCore d { d with output := out } :=
  ⟨Eq.refl _, Eq.refl _, Eq.refl _, Eq.refl _, Eq.refl _, Eq.refl _,
   Eq.refl _, Eq.refl _, Eq.refl _⟩

/-- A doubled backtick emits a single `"`. -/
theorem stepBacktickPair (d : Detex) (r : List Char)
    (hw : d.opts.word = false) (hst : dstream d = '`' :: '`' :: r) :
    ∃ d', processNormal d = .ok d' ∧ d'.output = d.output ++ ['"'] ∧
      dstream d' = r ∧ SameCore d d' := by
  obtain ⟨h1, h2, hcore, hout, -⟩ := nextChar_cons hst
  rcases hq : nextChar d with ⟨c?, d1⟩
  rw [hq] at h1 h2 hcore hout
  simp only at h1 h2 hcore hout
  subst h1
  have hpeek : peekChar d1 = some '`' := by rw [peekChar_eq_head, h2]; rfl
  obtain ⟨g1, g2, gcore, gout, -⟩ := nextChar_cons h2
  have hw1 : d1.opts.word = false := by rw [hcore.1]; exact hw
  have hpn : processNormal d =
      .ok { (nextChar d1).2 with output := (nextChar d1).2.output ++ ['"'] } := by
    unfold processNormal
    rw [hq]
    simp [hpeek, hw1, hcore.1, hw]
  refine ⟨_, hpn, ?_, g2, (hcore.trans gcore).trans (sameCore_setOutput _ _)⟩
  show (nextChar d1).2.output ++ ['"'] = d.output ++ ['"']
  rw [gout, hout]

/-- A doubled apostrophe emits a single `"`. -/
theorem stepQuotePair (d : Detex) (r : List Char)
    (hw : d.opts.word = false) (hst : dstream d = '\'' :: '\'' :: r) :
    ∃ d', processNormal d = .ok d' ∧ d'.output = d.output ++ ['"'] ∧
      dstream d' = r ∧ SameCore d d' := by
  obtain ⟨h1, h2, hcore, hout, -⟩ := nextChar_cons hst
  rcases hq : nextChar d with ⟨c?, d1⟩
  rw [hq] at h1 h2 hcore hout
  simp only at h1 h2 hcore hout
  subst h1
  have hpeek : peekChar d1 = some '\'' := by rw [peekChar_eq_head, h2]; rfl
  obtain ⟨g1, g2, gcore, gout, -⟩ := nextChar_cons h2
  have hpn : processNormal d =
      .ok { (nextChar d1).2 with output := (nextChar d1).2.output ++ ['"'] } := by
    unfold processNormal
    rw [hq]
    simp [hpeek, hcore.1, hw]
  refine ⟨_, hpn, ?_, g2, (hcore.trans gcore).trans (sameCore_setOutput _ _)⟩
  show (nextChar d1).2.output ++ ['"'] = d.output ++ ['"']
  rw [gout, hout]

/-- A doubled comma emits a single `"`. -/
theorem stepCommaPair (d : Detex) (r : List Char)
    (hw : d.opts.word = false) (hst : dstream d = ',' :: ',' :: r) :
    ∃ d', processNormal d = .ok d' ∧ d'.output = d.output ++ ['"'] ∧
      dstream d' = r ∧ SameCore d d' := by
  obtain ⟨h1, h2, hcore, hout, -⟩ := nextChar_cons hst
  rcases hq : nextChar d with ⟨c?, d1⟩
  rw [hq] at h1 h2 hcore hout
  simp only at h1 h2 hcore hout
  subst h1
  have hpeek : peekChar d1 = some ',' := by rw [peekChar_eq_head, h2]; rfl
  obtain ⟨g1, g2, gcore, gout, -⟩ := nextChar_cons h2
  have hpn : processNormal d =
      .ok { (nextChar d1).2 with output := (nextChar d1).2.output ++ ['"'] } := by
    unfold processNormal
    rw [hq]
    simp [hpeek, hcore.1, hw]
  refine ⟨_, hpn, ?_, g2, (hcore.trans gcore).trans (sameCore_setOutput _ _)⟩
  show (nextChar d1).2.output ++ ['"'] = d.output ++ ['"']
  rw [gout, hout]

/-- A lone backtick emits a single apostrophe. -/
theorem stepLoneBacktick (d : Detex) (r : List Char)
    (hw : d.opts.word = false) (hst : dstream d = '`' :: r)
    (hr : r.head? ≠ some '`') :
    ∃ d', processNormal d = .ok d' ∧ d'.output = d.output ++ ['\''] ∧
      dstream d' = r ∧ SameCore d d' := by
  obtain ⟨h1, h2, hcore, hout, -⟩ := nextChar_cons hst
  rcases hq : nextChar d with ⟨c?, d1⟩
  rw [hq] at h1 h2 hcore hout
  simp only at h1 h2 hcore hout
  subst h1
  have hpeek : ¬ peekChar d1 = some '`' := by rw [peekChar_eq_head, h2]; exact hr
  have hpn : processNormal d = .ok { d1 with output := d1.output ++ ['\''] } := by
    unfold processNormal
    rw [hq]
    simp [hpeek, hcore.1, hw]
  refine ⟨_, hpn, ?_, h2, hcore.trans (sameCore_setOutput _ _)⟩
  show d1.output ++ ['\''] = d.output ++ ['\'']
  rw [hout]

end Detex

namespace Detex

/-- Iterate `process_next` a fixed number of times (a finite window of
the processing loop, with no end-of-file popping in between). -/
def steps (fs : String → Option String) : Nat → Detex → Except String Detex
  | 0, d => .ok d
  | n + 1, d => do
    let d' ← processNext fs d
    steps fs n d'

theorem processNext_normal (fs : String → Option String) {d : Detex}
    (h : d.state = .Normal) : processNext fs d = processNormal d := by
  unfold processNext
  rw [h]

/-- One Normal-state step on a maximal dash run consumes
`min k 3` dashes and emits exactly one `-`. -/
theorem stepDash (d : Detex) (k : Nat) (r : List Char)
    (hk : 1 ≤ k) (hw : d.opts.word = false)
    (hst : dstream d = List.replicate k '-' ++ r) (hr : r.head? ≠ some '-') :
    ∃ d', processNormal d = .ok d' ∧ d'.output = d.output ++ ['-'] ∧
      dstream d' = List.replicate (k - 3) '-' ++ r ∧ SameCore d d' := by
  match k, hk with
  | 1, _ =>
    have hst1 : dstream d = '-' :: r := by simpa using hst
    obtain ⟨h1, h2, hcore, hout, -⟩ := nextChar_cons hst1
    rcases hq : nextChar d with ⟨c?, d1⟩
    rw [hq] at h1 h2 hcore hout
    simp only at h1 h2 hcore hout
    subst h1
    have hpeek : ¬ peekChar d1 = some '-' := by rw [peekChar_eq_head, h2]; exact hr
    have hda : dashAux 2 1 d1 = d1 := by
      unfold dashAux
      simp [hpeek]
    have hpn : processNormal d = .ok { d1 with output := d1.output ++ ['-'] } := by
      unfold processNormal
      rw [hq]
      simp [hda, hcore.1, hw]
    exact ⟨_, hpn, by show d1.output ++ _ = _; rw [hout], by simpa using h2,
      hcore.trans (sameCore_setOutput _ _)⟩
  | 2, _ =>
    have hst1 : dstream d = '-' :: ('-' :: r) := by simpa using hst
    obtain ⟨h1, h2, hcore, hout, -⟩ := nextChar_cons hst1
    rcases hq : nextChar d with ⟨c?, d1⟩
    rw [hq] at h1 h2 hcore hout
    simp only at h1 h2 hcore hout
    subst h1
    have hpeek : peekChar d1 = some '-' := by rw [peekChar_eq_head, h2]; rfl
    obtain ⟨g1, g2, gcore, gout, -⟩ := nextChar_cons h2
    have hpeek2 : ¬ peekChar (nextChar d1).2 = some '-' := by
      rw [peekChar_eq_head, g2]; exact hr
    have hda : dashAux 2 1 d1 = (nextChar d1).2 := by
      unfold dashAux
      simp [hpeek]
      unfold dashAux
      simp [hpeek2]
    have hpn : processNormal d =
        .ok { (nextChar d1).2 with output := (nextChar d1).2.output ++ ['-'] } := by
      unfold processNormal
      rw [hq]
      simp [hda, hcore.1, hw]
    exact ⟨_, hpn, by show (nextChar d1).2.output ++ _ = _; rw [gout, hout],
      by simpa using g2,
      (hcore.trans gcore).trans (sameCore_setOutput _ _)⟩
  | (j + 3), _ =>
    have hst1 : dstream d = '-' :: ('-' :: ('-' :: (List.replicate j '-' ++ r))) := by
      simpa [List.replicate_succ] using hst
    obtain ⟨h1, h2, hcore, hout, -⟩ := nextChar_cons hst1
    rcases hq : nextChar d with ⟨c?, d1⟩
    rw [hq] at h1 h2 hcore hout
    simp only at h1 h2 hcore hout
    subst h1
    have hpeek : peekChar d1 = some '-' := by rw [peekChar_eq_head, h2]; rfl
    obtain ⟨g1, g2, gcore, gout, -⟩ := nextChar_cons h2
    have hpeek2 : peekChar (nextChar d1).2 = some '-' := by
      rw [peekChar_eq_head, g2]; rfl
    obtain ⟨f1, f2, fcore, fout, -⟩ := nextChar_cons g2
    have hda : dashAux 2 1 d1 = (nextChar (nextChar d1).2).2 := by
      unfold dashAux
      simp [hpeek]
      unfold dashAux
      simp [hpeek2]
      rfl
    have hpn : processNormal d =
        .ok { (nextChar (nextChar d1).2).2 with
              output := (nextChar (nextChar d1).2).2.output ++ ['-'] } := by
      unfold processNormal
      rw [hq]
      simp [hda, hcore.1, hw]
    refine ⟨_, hpn, ?_, by simpa using f2,
      ((hcore.trans gcore).trans fcore).trans (sameCore_setOutput _ _)⟩
    show (nextChar (nextChar d1).2).2.output ++ _ = _
    rw [fout, gout, hout]

/-- A maximal run of `k ≥ 1` dashes takes `⌈k/3⌉` Normal-state steps and
emits exactly `⌈k/3⌉` dashes. -/
theorem dashRun (fs : String → Option String) :
    ∀ k, 1 ≤ k → ∀ d r, d.state = .Normal → d.opts.word = false →
      dstream d = List.replicate k '-' ++ r → r.head? ≠ some '-' →
      ∃ d', steps fs ((k + 2) / 3) d = .ok d' ∧
        d'.output = d.output ++ List.replicate ((k + 2) / 3) '-' ∧
        dstream d' = r ∧ SameCore d d' := by
  intro k
  induction k using Nat.strong_induction_on with
  | _ k ih =>
    intro hk d r hstate hw hst hr
    obtain ⟨d1, hp1, ho1, hs1, hc1⟩ := stepDash d k r hk hw hst hr
    by_cases hk3 : k ≤ 3
    · have hdiv : (k + 2) / 3 = 1 := by omega
      have hk30 : k - 3 = 0 := by omega
      rw [hk30] at hs1
      simp at hs1
      refine ⟨d1, ?_, by rw [hdiv]; simpa using ho1, hs1, hc1⟩
      rw [hdiv]
      show (do
        let d' ← processNext fs d
        steps fs 0 d') = .ok d1
      rw [processNext_normal fs hstate, hp1]
      rfl
    · have hk4 : 4 ≤ k := by omega
      have hdiv : (k + 2) / 3 = (k - 3 + 2) / 3 + 1 := by omega
      obtain ⟨d2, hp2, ho2, hs2, hc2⟩ := ih (k - 3) (by omega) (by omega) d1 r
        (hc1.2.1.trans hstate) (by rw [hc1.1]; exact hw) hs1 hr
      refine ⟨d2, ?_, ?_, hs2, hc1.trans hc2⟩
      · rw [hdiv]
        show (do
          let d' ← processNext fs d
          steps fs ((k - 3 + 2) / 3) d') = .ok d2
        rw [processNext_normal fs hstate, hp1]
        simpa using hp2
      · rw [ho2, ho1, hdiv]
        simp [List.replicate_succ]

end Detex

open Detex in
/-- C4 (amended): in Normal state with word-only off, a doubled
backtick, a doubled apostrophe and a doubled comma each emit a single
`"`, and a lone backtick emits a single apostrophe — as claimed.  For
hyphens the collapse is per chunk of three: a maximal run of `k ≥ 1`
consecutive hyphens emits exactly `⌈k/3⌉` hyphens (one when `k` is 2 or
3, but two when `k` is 4, not one as originally claimed). -/
theorem c4_punctuationSubstitutions :
    (∀ (d : Detex) r, d.opts.word = false → dstream d = '`' :: '`' :: r →
      ∃ d', processNormal d = .ok d' ∧ d'.output = d.output ++ ['"'] ∧
        dstream d' = r ∧ SameCore d d') ∧
    (∀ (d : Detex) r, d.opts.word = false → dstream d = '\'' :: '\'' :: r →
      ∃ d', processNormal d = .ok d' ∧ d'.output = d.output ++ ['"'] ∧
        dstream d' = r ∧ SameCore d d') ∧
    (∀ (d : Detex) r, d.opts.word = false → dstream d = ',' :: ',' :: r →
      ∃ d', processNormal d = .ok d' ∧ d'.output = d.output ++ ['"'] ∧
        dstream d' = r ∧ SameCore d d') ∧
    (∀ (d : Detex) r, d.opts.word = false → dstream d = '`' :: r →
      r.head? ≠ some '`' →
      ∃ d', processNormal d = .ok d' ∧ d'.output = d.output ++ ['\''] ∧
        dstream d' = r ∧ SameCore d d') ∧
    (∀ (fs : String → Option String) k (d : Detex) r, 1 ≤ k →
      d.state = .Normal → d.opts.word = false →
      dstream d = List.replicate k '-' ++ r → r.head? ≠ some '-' →
      ∃ d', steps fs ((k + 2) / 3) d = .ok d' ∧
        d'.output = d.output ++ List.replicate ((k + 2) / 3) '-' ∧
        dstream d' = r ∧ SameCore d d') :=
  ⟨stepBacktickPair, stepQuotePair, stepCommaPair, stepLoneBacktick,
   fun fs k d r hk => dashRun fs k hk d r⟩

open Detex in
/-- Witness for the amended C4 at concrete inputs, including a run of
four hyphens emitting two dashes. -/
theorem c4_punctuationSubstitutions_witness :
    (∃ d', processNormal (Detex.init defaultOptions "f" "``x") = .ok d' ∧
      d'.output = (Detex.init defaultOptions "f" "``x").output ++ ['"'] ∧
      dstream d' = "x".data ∧ SameCore (Detex.init defaultOptions "f" "``x") d') ∧
    (∃ d', steps (fun _ => none) ((4 + 2) / 3)
        (Detex.init defaultOptions "f" "----x") = .ok d' ∧
      d'.output = (Detex.init defaultOptions "f" "----x").output ++
        List.replicate ((4 + 2) / 3) '-' ∧
      dstream d' = "x".data ∧
      SameCore (Detex.init defaultOptions "f" "----x") d') :=
  ⟨c4_punctuationSubstitutions.1 _ "x".data (by decide) (by decide),
   c4_punctuationSubstitutions.2.2.2.2 (fun _ => none) 4 _ "x".data (by decide)
     (by decide) (by decide) (by decide) (by decide)⟩

open Detex in
/-- C4 (counterexample to the claim as stated): with default flags, the
maximal run of four hyphens in `----` emits `--`, not exactly one
`-`. -/
theorem c4_counterexample :
    (Detex.run (fun _ => none) 8 (Detex.init defaultOptions "f" "----")).map
      Detex.output = .ok "--".data ∧ "--".data ≠ "-".data :=
  ⟨by rfl, by decide⟩

/-! ## Plain prose: characters and pairs that trigger no substitution -/

/-- A character that is not itself special in Normal state. -/
def plainChar (c : Char) : Bool :=
  !(c = '\\' || c = '$' || c = '%' || c = '{' || c = '}' || c = '~' ||
    c = '|' || c = '`')

/-- Adjacent pairs that trigger no substitution: no doubled hyphen,
apostrophe or comma. -/
def okPair (a b : Char) : Bool :=
  !((a = '-' && b = '-') || (a = '\'' && b = '\'') || (a = ',' && b = ','))

/-- Plain prose: every character plain and no substituting pair. -/
def plainProseB : List Char → Bool
  | [] => true
  | [c] => plainChar c
  | a :: b :: t => plainChar a && okPair a b && plainProseB (b :: t)

theorem plainProseB_head {a : Char} {l : List Char}
    (h : plainProseB (a :: l) = true) : plainChar a = true := by
  cases l with
  | nil => exact h
  | cons b t => unfold plainProseB at h; simp at h; exact h.1.1

theorem plainProseB_tail {a : Char} {l : List Char}
    (h : plainProseB (a :: l) = true) : plainProseB l = true := by
  cases l with
  | nil => rfl
  | cons b t => unfold plainProseB at h; simp at h; exact h.2

theorem plainProseB_pair {a b : Char} {l : List Char}
    (h : plainProseB (a :: b :: l) = true) : okPair a b = true := by
  unfold plainProseB at h
  simp at h
  exact h.1.2

theorem plainProseB_drop {l : List Char} (k : Nat)
    (h : plainProseB l = true) : plainProseB (l.drop k) = true := by
  induction k generalizing l with
  | zero => simpa using h
  | succ k ih =>
    cases l with
    | nil => rfl
    | cons a t => exact ih (plainProseB_tail h)

/-- The word recognizer of `process_normal`'s alphabetic arm, as a pure
function on the character stream: letters, plus an apostrophe kept only
when a letter follows. -/
def wordSplit : List Char → List Char × List Char
  | [] => ([], [])
  | c :: t =>
    if rustIsAsciiAlpha c then
      let p := wordSplit t
      (c :: p.1, p.2)
    else if c = '\'' then
      match t with
      | c2 :: _ =>
        if rustIsAsciiAlpha c2 then
          let p := wordSplit t
          ('\'' :: p.1, p.2)
        else ([], c :: t)
      | [] => ([], c :: t)
    else ([], c :: t)

/-- With a stopper (`}` or end of input) after `l`, the word recognizer
never reads past `l`. -/
theorem wordSplit_within :
    ∀ (l r : List Char), (r = [] ∨ r.head? = some '}') →
      ∃ k ≤ l.length, wordSplit (l ++ r) = (l.take k, l.drop k ++ r) := by
  intro l
  induction l with
  | nil =>
    intro r hstop
    refine ⟨0, by simp, ?_⟩
    rcases hstop with rfl | hh
    · rfl
    · cases r with
      | nil => cases hh
      | cons x rt =>
        simp at hh
        subst hh
        simp [wordSplit]
        all_goals decide
  | cons c l' ih =>
    intro r hstop
    by_cases hc : rustIsAsciiAlpha c = true
    · obtain ⟨k, hk, hws⟩ := ih r hstop
      refine ⟨k + 1, by simpa using Nat.succ_le_succ hk, ?_⟩
      have hstep : wordSplit ((c :: l') ++ r) =
          (c :: (wordSplit (l' ++ r)).1, (wordSplit (l' ++ r)).2) := by
        simp [wordSplit, hc]
      rw [hstep, hws]
      simp
    · by_cases hq : c = '\''
      · subst hq
        have ha1 : rustIsAsciiAlpha '\'' = false := by decide
        have ha2 : rustIsAsciiAlpha '}' = false := by decide
        cases l' with
        | nil =>
          refine ⟨0, by simp, ?_⟩
          rcases hstop with rfl | hh
          · rfl
          · cases r with
            | nil => cases hh
            | cons x rt =>
              simp at hh
              subst hh
              simp [wordSplit, ha1, ha2]
        | cons c2 l'' =>
          by_cases hc2 : rustIsAsciiAlpha c2 = true
          · obtain ⟨k, hk, hws⟩ := ih r hstop
            refine ⟨k + 1, by simpa using Nat.succ_le_succ hk, ?_⟩
            have hstep : wordSplit (('\'' :: c2 :: l'') ++ r) =
                ('\'' :: (wordSplit ((c2 :: l'') ++ r)).1,
                 (wordSplit ((c2 :: l'') ++ r)).2) := by
              simp [wordSplit, hc2]
            rw [hstep, hws]
            simp
          · refine ⟨0, by simp, ?_⟩
            have hc2' : rustIsAsciiAlpha c2 = false := by simpa using hc2
            simp [wordSplit, hc2', ha1]
      · refine ⟨0, by simp, ?_⟩
        have hc' : rustIsAsciiAlpha c = false := by simpa using hc
        cases l' with
        | nil =>
          rcases hstop with rfl | hh
          · simp [wordSplit, hc', hq]
          · cases r with
            | nil => cases hh
            | cons x rt =>
              simp at hh
              subst hh
              simp [wordSplit, hc', hq]
        | cons c2 l'' => simp [wordSplit, hc', hq]

namespace Detex

/-- The alphabetic-arm loop computes exactly `wordSplit` on the
stream. -/
theorem wordAux_spec :
    ∀ (fuel : Nat) (l : List Char) (d : Detex) (acc : List Char),
      dstream d = l → d.file_stack ≠ [] → l.length ≤ fuel →
      (wordAux fuel d acc).1 = acc ++ (wordSplit l).1 ∧
      dstream (wordAux fuel d acc).2 = (wordSplit l).2 ∧
      SameCore d (wordAux fuel d acc).2 ∧
      (wordAux fuel d acc).2.output = d.output := by
  intro fuel
  induction fuel with
  | zero =>
    intro l d acc hst hne hlen
    simp at hlen
    subst hlen
    refine ⟨?_, ?_, SameCore.rfl, rfl⟩
    · show acc = acc ++ (wordSplit []).1
      rw [show (wordSplit []).1 = [] from rfl, List.append_nil]
    · show dstream d = (wordSplit []).2
      rw [hst]
      rfl
  | succ fuel ih =>
    intro l d acc hst hne hlen
    cases l with
    | nil =>
      have hpk : peekChar d = none := by rw [peekChar_eq_head, hst]; rfl
      have hres : wordAux (fuel + 1) d acc = (acc, d) := by
        simp only [wordAux]
        rw [hpk]
      rw [hres]
      exact ⟨by simp [wordSplit], by simp [wordSplit, hst], SameCore.rfl, rfl⟩
    | cons ch t =>
      have hpk : peekChar d = some ch := by rw [peekChar_eq_head, hst]; rfl
      obtain ⟨h1, h2, hcore, hout, -⟩ := nextChar_cons hst
      have hlen' : t.length ≤ fuel := by simp at hlen; omega
      by_cases hal : rustIsAsciiAlpha ch = true
      · have hres : wordAux (fuel + 1) d acc =
            wordAux fuel (nextChar d).2 (acc ++ [ch]) := by
          simp only [wordAux]
          rw [hpk]
          simp [hal]
        obtain ⟨q1, q2, q3, q4⟩ := ih t (nextChar d).2 (acc ++ [ch]) h2
          (stack_ne_nil_of_sameCore hcore hne) hlen'
        rw [hres]
        have hws : wordSplit (ch :: t) = (ch :: (wordSplit t).1, (wordSplit t).2) := by
          simp [wordSplit, hal]
        rw [hws]
        exact ⟨by rw [q1]; simp, q2, hcore.trans q3, by rw [q4, hout]⟩
      · by_cases hap : ch = '\''
        · subst hap
          have hq0 : rustIsAsciiAlpha '\'' = false := by decide
          cases t with
          | nil =>
            have hpk2 : peekChar (nextChar d).2 = none := by
              rw [peekChar_eq_head, h2]; rfl
            have hres : wordAux (fuel + 1) d acc =
                (acc, ungetChar '\'' (nextChar d).2) := by
              simp only [wordAux]
              rw [hpk]
              simp [hpk2, hq0]
            obtain ⟨u1, u2, u3, u4⟩ :=
              ungetChar_stream (stack_ne_nil_of_sameCore hcore hne) '\''
            rw [hres]
            have hws : wordSplit ['\''] = ([], ['\'']) := by decide
            rw [hws]
            refine ⟨by simp, ?_, hcore.trans u2, by rw [u3, hout]⟩
            rw [u1, h2]
          | cons c2 t2 =>
            have hpk2 : peekChar (nextChar d).2 = some c2 := by
              rw [peekChar_eq_head, h2]; rfl
            by_cases hal2 : rustIsAsciiAlpha c2 = true
            · have hres : wordAux (fuel + 1) d acc =
                  wordAux fuel (nextChar d).2 (acc ++ ['\'']) := by
                simp only [wordAux]
                rw [hpk]
                simp [hpk2, hal2, hq0]
              obtain ⟨q1, q2, q3, q4⟩ := ih (c2 :: t2) (nextChar d).2
                (acc ++ ['\'']) h2 (stack_ne_nil_of_sameCore hcore hne) hlen'
              rw [hres]
              have hws : wordSplit ('\'' :: c2 :: t2) =
                  ('\'' :: (wordSplit (c2 :: t2)).1, (wordSplit (c2 :: t2)).2) := by
                simp [wordSplit, hal2]
              rw [hws]
              exact ⟨by rw [q1]; simp, q2, hcore.trans q3, by rw [q4, hout]⟩
            · have hres : wordAux (fuel + 1) d acc =
                  (acc, ungetChar '\'' (nextChar d).2) := by
                simp only [wordAux]
                rw [hpk]
                simp [hpk2, hal2, hq0]
              obtain ⟨u1, u2, u3, u4⟩ :=
                ungetChar_stream (stack_ne_nil_of_sameCore hcore hne) '\''
              rw [hres]
              have hal2' : rustIsAsciiAlpha c2 = false := by simpa using hal2
              have hws : wordSplit ('\'' :: c2 :: t2) = ([], '\'' :: c2 :: t2) := by
                simp [wordSplit, hal2', hq0]
              rw [hws]
              refine ⟨by simp, ?_, hcore.trans u2, by rw [u3, hout]⟩
              rw [u1, h2]
        · have hal' : rustIsAsciiAlpha ch = false := by simpa using hal
          have hres : wordAux (fuel + 1) d acc = (acc, d) := by
            simp only [wordAux]
            rw [hpk]
            simp [hal', hap]
          rw [hres]
          have hws : wordSplit (ch :: t) = ([], ch :: t) := by
            simp [wordSplit, hal', hap]
          rw [hws]
          exact ⟨by simp, hst, SameCore.rfl, rfl⟩

/-- The numeric-arm loop consumes exactly the leading digit run. -/
theorem numAux_spec :
    ∀ (fuel : Nat) (u r : List Char) (d : Detex) (acc : List Char),
      dstream d = u ++ r → (∀ x ∈ u, rustIsAsciiDigit x = true) →
      (∀ x, r.head? = some x → rustIsAsciiDigit x = false) →
      (u ++ r).length ≤ fuel →
      (numAux fuel d acc).1 = acc ++ u ∧
      dstream (numAux fuel d acc).2 = r ∧
      SameCore d (numAux fuel d acc).2 ∧
      (numAux fuel d acc).2.output = d.output := by
  intro fuel
  induction fuel with
  | zero =>
    intro u r d acc hst hu hr hlen
    simp at hlen
    obtain ⟨hu0, hr0⟩ := hlen
    subst hu0
    subst hr0
    simp at hst
    exact ⟨by simp [numAux], by simp [numAux, hst], SameCore.rfl, rfl⟩
  | succ fuel ih =>
    intro u r d acc hst hu hr hlen
    cases u with
    | nil =>
      simp at hst
      have hres : numAux (fuel + 1) d acc = (acc, d) := by
        simp only [numAux]
        rw [peekChar_eq_head, hst]
        cases r with
        | nil => rfl
        | cons x rt => simp [hr x rfl]
      rw [hres]
      exact ⟨by simp, hst, SameCore.rfl, rfl⟩
    | cons a u' =>
      have ha := hu a (by simp)
      have hstA : dstream d = a :: (u' ++ r) := by simpa using hst
      have hres : numAux (fuel + 1) d acc =
          numAux fuel (nextChar d).2 (acc ++ [a]) := by
        simp only [numAux]
        rw [peekChar_eq_head, hstA]
        simp [ha]
      obtain ⟨h1, h2, hcore, hout, -⟩ := nextChar_cons hstA
      have hlen' : (u' ++ r).length ≤ fuel := by simp at hlen ⊢; omega
      obtain ⟨q1, q2, q3, q4⟩ :=
        ih u' r (nextChar d).2 (acc ++ [a]) h2 (fun x hx => hu x (by simp [hx]))
          hr hlen'
      rw [hres]
      exact ⟨by rw [q1]; simp, q2, hcore.trans q3, by rw [q4, hout]⟩

end Detex

namespace Detex

theorem printPfx_noloc {d : Detex} (h : d.opts.src_loc = false) :
    printPfx d = d := by
  simp [printPfx, h]

theorem echo_noloc {d : Detex} (c : Char) (h : d.opts.src_loc = false) :
    echo c d = { d with output := d.output ++ [c] } := by
  rw [echo, printPfx_noloc h]

theorem echoStr_noloc {d : Detex} (s : List Char) (h : d.opts.src_loc = false) :
    echoStr s d = { d with output := d.output ++ s } := by
  rw [echoStr, printPfx_noloc h]

theorem lineBreak_plain {d : Detex} (hw : d.opts.word = false)
    (h : d.opts.src_loc = false) :
    (lineBreak d).output = d.output ++ ['\n'] ∧
    dstream (lineBreak d) = dstream d ∧ SameCore d (lineBreak d) := by
  have hlb : lineBreak d =
      bumpLine { printPfx d with output := (printPfx d).output ++ ['\n'] } := by
    rw [lineBreak]
    rw [if_neg (by simp [hw])]
    rfl
  rw [hlb, printPfx_noloc h]
  obtain ⟨b1, b2, b3, b4⟩ := bumpLine_stream { d with output := d.output ++ ['\n'] }
  refine ⟨by rw [b2], by rw [b1]; rfl, ?_⟩
  exact (sameCore_setOutput d _).trans b3

end Detex

namespace Detex

/-- One Normal-state step on plain prose (with an optional `}` stopper
after it) consumes `k ≥ 1` characters and echoes exactly those
characters. -/
theorem stepPlain (d : Detex) (c : Char) (l r : List Char)
    (hw : d.opts.word = false) (hsrc : d.opts.src_loc = false)
    (hst : dstream d = (c :: l) ++ r)
    (hplain : plainProseB (c :: l) = true)
    (hstop : r = [] ∨ r.head? = some '}') :
    ∃ d' k, processNormal d = .ok d' ∧ 1 ≤ k ∧
      d'.output = d.output ++ (c :: l).take k ∧
      dstream d' = (c :: l).drop k ++ r ∧ SameCore d d' := by
  have hst1 : dstream d = c :: (l ++ r) := by simpa using hst
  obtain ⟨h1, h2, hcore, hout, -⟩ := nextChar_cons hst1
  rcases hq : nextChar d with ⟨c?, d1⟩
  rw [hq] at h1 h2 hcore hout
  simp only at h1 h2 hcore hout
  subst h1
  have hne1 : d1.file_stack ≠ [] :=
    stack_ne_nil_of_sameCore hcore (stack_ne_nil_of_dstream_cons hst1)
  have hpc := plainProseB_head hplain
  unfold plainChar at hpc
  simp at hpc
  obtain ⟨⟨⟨⟨⟨⟨⟨nbs, nds⟩, npc⟩, nob⟩, ncb⟩, ntl⟩, npi⟩, nbt⟩ := hpc
  have hw1 : d1.opts.word = false := by rw [hcore.1]; exact hw
  have hsrc1 : d1.opts.src_loc = false := by rw [hcore.1]; exact hsrc
  -- the head of what follows is a plain character or the `}` stopper
  have hheadnext : ∀ x, (l ++ r).head? = some x → plainChar x = true ∨ x = '}' := by
    intro x hx
    cases l with
    | nil =>
      rcases hstop with rfl | hh
      · cases hx
      · right
        simp at hx
        rw [hx] at hh
        exact Option.some_injective _ hh
    | cons a t =>
      left
      simp at hx
      rw [← hx]
      exact plainProseB_head (plainProseB_tail hplain)
  have hpairnext : ∀ x, (l ++ r).head? = some x → okPair c x = true ∨ x = '}' := by
    intro x hx
    cases l with
    | nil =>
      rcases hstop with rfl | hh
      · cases hx
      · right
        simp at hx
        rw [hx] at hh
        exact Option.some_injective _ hh
    | cons a t =>
      left
      simp at hx
      rw [← hx]
      exact plainProseB_pair hplain
  have hnotbk : ¬ peekChar d1 = some '`' := by
    rw [peekChar_eq_head, h2]
    intro hcon
    rcases hheadnext '`' hcon with h | h
    · exact absurd h (by decide)
    · exact absurd h (by decide)
  have hnotbs : ¬ peekChar d1 = some '\\' := by
    rw [peekChar_eq_head, h2]
    intro hcon
    rcases hheadnext '\\' hcon with h | h
    · exact absurd h (by decide)
    · exact absurd h (by decide)
  by_cases hEx : c = '!' ∨ c = '?'
  · -- Spanish punctuation arm: no following backtick, so plain echo
    have hpn : processNormal d = .ok { d1 with output := d1.output ++ [c] } := by
      unfold processNormal
      rw [hq]
      rcases hEx with rfl | rfl <;>
        simp [hnotbk, hw1, echo, printPfx_noloc hsrc1]
    exact ⟨_, 1, hpn, le_refl 1, by show d1.output ++ [c] = _; rw [hout]; rfl,
      by simpa using h2, hcore.trans (sameCore_setOutput _ _)⟩
  · by_cases hDash : c = '-'
    · subst hDash
      have hpkd : ¬ peekChar d1 = some '-' := by
        rw [peekChar_eq_head, h2]
        intro hcon
        rcases hpairnext '-' hcon with h | h
        · exact absurd h (by decide)
        · exact absurd h (by decide)
      have hda : dashAux 2 1 d1 = d1 := by
        unfold dashAux
        simp [hpkd]
      have hpn : processNormal d = .ok { d1 with output := d1.output ++ ['-'] } := by
        unfold processNormal
        rw [hq]
        simp [hda, hw1]
      exact ⟨_, 1, hpn, le_refl 1, by show d1.output ++ _ = _; rw [hout]; rfl,
        by simpa using h2, hcore.trans (sameCore_setOutput _ _)⟩
    · by_cases hAp : c = '\''
      · subst hAp
        have hpka : ¬ peekChar d1 = some '\'' := by
          rw [peekChar_eq_head, h2]
          intro hcon
          rcases hpairnext '\'' hcon with h | h
          · exact absurd h (by decide)
          · exact absurd h (by decide)
        have hpn : processNormal d =
            .ok { d1 with output := d1.output ++ ['\''] } := by
          unfold processNormal
          rw [hq]
          simp [hpka, hw1, echo, printPfx_noloc hsrc1]
        exact ⟨_, 1, hpn, le_refl 1, by show d1.output ++ _ = _; rw [hout]; rfl,
          by simpa using h2, hcore.trans (sameCore_setOutput _ _)⟩
      · by_cases hCm : c = ','
        · subst hCm
          have hpkc : ¬ peekChar d1 = some ',' := by
            rw [peekChar_eq_head, h2]
            intro hcon
            rcases hpairnext ',' hcon with h | h
            · exact absurd h (by decide)
            · exact absurd h (by decide)
          have hpn : processNormal d =
              .ok { d1 with output := d1.output ++ [','] } := by
            unfold processNormal
            rw [hq]
            simp [hpkc, hw1, echo, printPfx_noloc hsrc1]
          exact ⟨_, 1, hpn, le_refl 1, by show d1.output ++ _ = _; rw [hout]; rfl,
            by simpa using h2, hcore.trans (sameCore_setOutput _ _)⟩
        · by_cases hNl : c = '\n'
          · subst hNl
            obtain ⟨lb1, lb2, lb3⟩ := lineBreak_plain hw1 hsrc1
            have hpn : processNormal d = .ok (lineBreak d1) := by
              unfold processNormal
              rw [hq]
              simp [hw1]
            exact ⟨_, 1, hpn, le_refl 1,
              by rw [lb1, hout]; rfl, by rw [lb2]; simpa using h2,
              hcore.trans lb3⟩
          · by_cases hTab : c = '\t'
            · subst hTab
              have hpn : processNormal d =
                  .ok { d1 with output := d1.output ++ ['\t'] } := by
                unfold processNormal
                rw [hq]
                simp [hw1]
              exact ⟨_, 1, hpn, le_refl 1,
                by show d1.output ++ _ = _; rw [hout]; rfl,
                by simpa using h2, hcore.trans (sameCore_setOutput _ _)⟩
            · by_cases hAl : rustIsAsciiAlpha c = true
              · -- word accumulation
                obtain ⟨k, hk, hws⟩ := wordSplit_within l r hstop
                obtain ⟨w1, w2, w3, w4⟩ := wordAux_spec (dRem d1) (l ++ r) d1 [c]
                  h2 hne1 (by rw [dRem_eq, h2])
                rcases hwa : wordAux (dRem d1) d1 [c] with ⟨word, d2⟩
                rw [hwa] at w1 w2 w3 w4
                simp only at w1 w2 w3 w4
                rw [hws] at w1 w2
                simp only at w1 w2
                have hw2 : d2.opts.word = false := by rw [w3.1, hcore.1]; exact hw
                have hsrc2 : d2.opts.src_loc = false := by
                  rw [w3.1, hcore.1]; exact hsrc
                have hpn : processNormal d =
                    .ok { d2 with output := d2.output ++ word } := by
                  unfold processNormal
                  rw [hq]
                  simp [hAl, nbs, nds, npc, nob, ncb, ntl, npi, nbt, hEx, hDash,
                    hAp, hCm, hNl, hTab, hwa, hw2, echoStr, printPfx_noloc hsrc2]
                refine ⟨_, k + 1, hpn, by omega, ?_, ?_,
                  (hcore.trans w3).trans (sameCore_setOutput _ _)⟩
                · show d2.output ++ word = d.output ++ (c :: l).take (k + 1)
                  rw [w4, hout, w1]
                  simp
                · show dstream d2 = (c :: l).drop (k + 1) ++ r
                  rw [w2]
                  simp
              · by_cases hDg : rustIsAsciiDigit c = true
                · -- digit accumulation
                  have hsplit : l ++ r =
                      l.takeWhile rustIsAsciiDigit ++
                        (l.dropWhile rustIsAsciiDigit ++ r) := by
                    rw [← List.append_assoc, List.takeWhile_append_dropWhile]
                  obtain ⟨n1, n2, n3, n4⟩ := numAux_spec (dRem d1)
                    (l.takeWhile rustIsAsciiDigit)
                    (l.dropWhile rustIsAsciiDigit ++ r) d1 [c]
                    (by rw [h2, hsplit])
                    (fun x hx => List.mem_takeWhile_imp hx)
                    (by
                      intro x hx
                      cases hdw : l.dropWhile rustIsAsciiDigit with
                      | nil =>
                        rw [hdw] at hx
                        simp at hx
                        rcases hstop with rfl | hh
                        · cases hx
                        · rw [hx] at hh
                          have : x = '}' := Option.some_injective _ hh
                          rw [this]
                          decide
                      | cons y yt =>
                        rw [hdw] at hx
                        simp at hx
                        rw [← hx]
                        exact head?_dropWhile_not l y (by rw [hdw]; rfl))
                    (by rw [dRem_eq, h2, hsplit])
                  rcases hna : numAux (dRem d1) d1 [c] with ⟨num, d2⟩
                  rw [hna] at n1 n2 n3 n4
                  simp only at n1 n2 n3 n4
                  have hsrc2 : d2.opts.src_loc = false := by
                    rw [n3.1, hcore.1]; exact hsrc
                  have hpn : processNormal d =
                      .ok { d2 with output := d2.output ++ num } := by
                    unfold processNormal
                    rw [hq]
                    simp [hDg, hAl, nbs, nds, npc, nob, ncb, ntl, npi, nbt, hEx,
                      hDash, hAp, hCm, hNl, hTab, hw1, hna, echoStr,
                      printPfx_noloc hsrc2]
                  have htk : l.take (l.takeWhile rustIsAsciiDigit).length =
                      l.takeWhile rustIsAsciiDigit :=
                    (List.prefix_iff_eq_take.mp (List.takeWhile_prefix _)).symm
                  have hdr : l.drop (l.takeWhile rustIsAsciiDigit).length =
                      l.dropWhile rustIsAsciiDigit := by
                    have hcat := @List.takeWhile_append_dropWhile _
                      rustIsAsciiDigit l
                    have hcat2 := List.take_append_drop
                      (l.takeWhile rustIsAsciiDigit).length l
                    rw [htk] at hcat2
                    exact List.append_cancel_left (hcat2.trans hcat.symm)
                  refine ⟨_, (l.takeWhile rustIsAsciiDigit).length + 1, hpn,
                    by omega, ?_, ?_,
                    (hcore.trans n3).trans (sameCore_setOutput _ _)⟩
                  · show d2.output ++ num = d.output ++ (c :: l).take (_ + 1)
                    rw [n4, hout, n1]
                    simp [htk]
                  · show dstream d2 = (c :: l).drop (_ + 1) ++ r
                    rw [n2]
                    simp [hdr]
                · -- any other character: plain echo (no space-before-\cite)
                  have hpn : processNormal d =
                      .ok { d1 with output := d1.output ++ [c] } := by
                    unfold processNormal
                    rw [hq]
                    simp [hDg, hAl, nbs, nds, npc, nob, ncb, ntl, npi, nbt, hEx,
                      hDash, hAp, hCm, hNl, hTab, hw1, hnotbs, echo,
                      printPfx_noloc hsrc1]
                  exact ⟨_, 1, hpn, le_refl 1,
                    by show d1.output ++ _ = _; rw [hout]; rfl,
                    by simpa using h2, hcore.trans (sameCore_setOutput _ _)⟩

end Detex

namespace Detex

theorem steps_add (fs : String → Option String) (a b : Nat) :
    ∀ d, steps fs (a + b) d =
      (do
        let d' ← steps fs a d
        steps fs b d') := by
  induction a with
  | zero =>
    intro d
    rw [Nat.zero_add]
    rfl
  | succ a ih =>
    intro d
    rw [Nat.succ_add]
    show (do
      let d1 ← processNext fs d
      steps fs (a + b) d1) =
      (do
        let d' ← (do
          let d1 ← processNext fs d
          steps fs a d1)
        steps fs b d')
    cases hpn : processNext fs d with
    | error e => rfl
    | ok d1 => exact ih d1

theorem sameCore_stackLen {d d' : Detex} (h : SameCore d d') :
    d'.file_stack.length = d.file_stack.length := by
  have h9 := h.2.2.2.2.2.2.2.2
  unfold stackNames at h9
  have := congrArg List.length h9
  simpa using this

/-- Several Normal-state steps echo a stretch of plain prose verbatim,
stopping exactly at the stopper. -/
theorem plainEchoSteps (fs : String → Option String) :
    ∀ (n : Nat) (l r : List Char) (d : Detex), l.length ≤ n →
      d.state = .Normal → d.opts.word = false → d.opts.src_loc = false →
      dstream d = l ++ r → plainProseB l = true →
      (r = [] ∨ r.head? = some '}') →
      ∃ m d', steps fs m d = .ok d' ∧ d'.output = d.output ++ l ∧
        dstream d' = r ∧ SameCore d d' := by
  intro n
  induction n with
  | zero =>
    intro l r d hlen hstate hw hsrc hst hplain hstop
    have : l = [] := by
      cases l with
      | nil => rfl
      | cons a t => simp at hlen
    subst this
    exact ⟨0, d, rfl, by simp, by simpa using hst, SameCore.rfl⟩
  | succ n ih =>
    intro l r d hlen hstate hw hsrc hst hplain hstop
    cases l with
    | nil => exact ⟨0, d, rfl, by simp, by simpa using hst, SameCore.rfl⟩
    | cons c l' =>
      obtain ⟨d1, k, hpn, hk1, hout1, hst1, hcore1⟩ :=
        stepPlain d c l' r hw hsrc hst hplain hstop
      obtain ⟨m, d2, hsteps2, hout2, hst2, hcore2⟩ := ih ((c :: l').drop k) r d1
        (by simp at hlen ⊢; omega)
        (hcore1.2.1.trans hstate) (by rw [hcore1.1]; exact hw)
        (by rw [hcore1.1]; exact hsrc) hst1 (plainProseB_drop k hplain) hstop
      refine ⟨m + 1, d2, ?_, ?_, hst2, hcore1.trans hcore2⟩
      · rw [Nat.add_comm m 1, steps_add]
        have h1 : steps fs 1 d = .ok d1 := by
          show (do
            let d' ← processNext fs d
            steps fs 0 d') = .ok d1
          rw [processNext_normal fs hstate, hpn]
          rfl
        rw [h1]
        exact hsteps2
      · rw [hout2, hout1]
        simp

end Detex

namespace Detex

theorem exceptBindOk {α : Type} (d : Detex) (f : Detex → Except String α) :
    (do
      let x ← (Except.ok d : Except String Detex)
      f x) = f d := rfl

end Detex

open Detex in
/-- C3: a `\footnote{` processed in Normal state emits `(`, records the
current brace depth in the footnote level, its plain content is echoed,
and the matching `}` at that same depth emits `)` and disarms the
footnote level: `\footnote{abc}` yields `(abc)` with the braces
stripped. -/
theorem c3_footnoteParens (fs : String → Option String) (d : Detex)
    (content rest : List Char)
    (hstate : d.state = .Normal) (hw : d.opts.word = false)
    (hsrc : d.opts.src_loc = false)
    (hst : dstream d = '\\' :: ("footnote".data ++ ('{' :: (content ++ '}' :: rest))))
    (hplain : plainProseB content = true) :
    ∃ m d', steps fs m d = .ok d' ∧
      d'.output = d.output ++ ('(' :: (content ++ [')'])) ∧
      dstream d' = rest ∧ d'.state = .Normal ∧
      d'.current_braces_level = d.current_braces_level ∧
      d'.footnote_level = -100 := by
  obtain ⟨h1, h2, hcore, hout, -⟩ := nextChar_cons hst
  rcases hq : nextChar d with ⟨c?, d1⟩
  rw [hq] at h1 h2 hcore hout
  simp only at h1 h2 hcore hout
  subst h1
  have hpnB : processNormal d = processBackslash d1 := by
    unfold processNormal
    rw [hq]
    rfl
  obtain ⟨r1, r2, r3, r4⟩ := @readCommandName_spec d1 "footnote".data
    ('{' :: (content ++ '}' :: rest)) h2 (by decide)
    (by intro x hx; simp at hx; subst hx; decide)
  rcases hrc : readCommandName d1 with ⟨cmd, d2⟩
  rw [hrc] at r1 r2 r3 r4
  simp only at r1 r2 r3 r4
  have hcmd : cmd = "footnote" := r1
  subst hcmd
  have hpk2 : peekChar d2 = some '{' := by rw [peekChar_eq_head, r2]; rfl
  have hnb : ¬ peekChar d2 = some '[' := by rw [hpk2]; decide
  have hskip : skipOptBracketArg d2 = d2 := by
    rw [skipOptBracketArg, if_neg hnb]
  obtain ⟨t1, t2, t3, t4⟩ := @tryMatch_success
    ['{'] (content ++ '}' :: rest) d2 (by simpa using r2)
  rcases htm : tryMatch ['{'] d2 with ⟨mflag, d3⟩
  rw [htm] at t1 t2 t3 t4
  simp only at t1 t2 t3 t4
  subst t1
  have hpb : processBackslash d1 = .ok { d3 with
        output := d3.output ++ ['('],
        footnote_level := i32cast d3.current_braces_level,
        current_braces_level := d3.current_braces_level + 1 } := by
    unfold processBackslash
    rw [hrc]
    show (match tryMatch ['{'] (skipOptBracketArg d2) with
          | (m, dd) =>
            if m then
              Except.ok { dd with
                    output := dd.output ++ ['('],
                    footnote_level := i32cast dd.current_braces_level,
                    current_braces_level := dd.current_braces_level + 1 }
            else Except.ok dd) = _
    rw [hskip, htm]
    rfl
  set dB : Detex := { d3 with
    output := d3.output ++ ['('],
    footnote_level := i32cast d3.current_braces_level,
    current_braces_level := d3.current_braces_level + 1 } with hdB
  have hcore3 : SameCore d d3 := (hcore.trans r3).trans t3
  have hstB : dstream dB = content ++ '}' :: rest := t2
  have hstateB : dB.state = .Normal := by
    show d3.state = _
    rw [hcore3.2.1, hstate]
  have hwB : dB.opts.word = false := by
    show d3.opts.word = _
    rw [hcore3.1]
    exact hw
  have hsrcB : dB.opts.src_loc = false := by
    show d3.opts.src_loc = _
    rw [hcore3.1]
    exact hsrc
  have houtB : dB.output = d.output ++ ['('] := by
    show d3.output ++ ['('] = _
    rw [t4, r4, hout]
  have hbrB : dB.current_braces_level = d.current_braces_level + 1 := by
    show d3.current_braces_level + 1 = _
    rw [hcore3.2.2.2.2.2.2.1]
  have hfnB : dB.footnote_level = i32cast d.current_braces_level := by
    show i32cast d3.current_braces_level = _
    rw [hcore3.2.2.2.2.2.2.1]
  have hs1 : steps fs 1 d = .ok dB := by
    show (do
      let x ← processNext fs d
      steps fs 0 x) = .ok dB
    rw [processNext_normal fs hstate, hpnB, hpb]
    rfl
  obtain ⟨mc, d4, hsC, houtC, hstC, hcoreC⟩ := plainEchoSteps fs content.length
    content ('}' :: rest) dB (le_refl _) hstateB hwB hsrcB hstB hplain
    (Or.inr rfl)
  obtain ⟨h1f, h2f, hcoreF, houtF, -⟩ := nextChar_cons hstC
  rcases hqf : nextChar d4 with ⟨cf, d5⟩
  rw [hqf] at h1f h2f hcoreF houtF
  simp only at h1f h2f hcoreF houtF
  subst h1f
  have hb5 : d5.current_braces_level = d.current_braces_level + 1 := by
    rw [hcoreF.2.2.2.2.2.2.1, hcoreC.2.2.2.2.2.2.1]
    exact hbrB
  have hf5 : d5.footnote_level = i32cast d.current_braces_level := by
    rw [hcoreF.2.2.2.2.2.2.2.1, hcoreC.2.2.2.2.2.2.2.1]
    exact hfnB
  have hstate4 : d4.state = .Normal := by
    rw [hcoreC.2.1]
    exact hstateB
  have hpnF : processNormal d4 = .ok { d5 with
        current_braces_level := d.current_braces_level,
        output := d5.output ++ [')'],
        footnote_level := (-100 : Int) } := by
    unfold processNormal
    rw [hqf]
    simp [hb5, hf5]
  have hsF : steps fs 1 d4 = .ok { d5 with
        current_braces_level := d.current_braces_level,
        output := d5.output ++ [')'],
        footnote_level := (-100 : Int) } := by
    show (do
      let x ← processNext fs d4
      steps fs 0 x) = _
    rw [processNext_normal fs hstate4, hpnF]
    rfl
  refine ⟨1 + (mc + 1), { d5 with
      current_braces_level := d.current_braces_level,
      output := d5.output ++ [')'],
      footnote_level := (-100 : Int) }, ?_, ?_, ?_, ?_, rfl, rfl⟩
  · rw [steps_add fs 1 (mc + 1), hs1, exceptBindOk,
        steps_add fs mc 1, hsC, exceptBindOk]
    exact hsF
  · show d5.output ++ [')'] = _
    rw [houtF, houtC, houtB]
    simp
  · exact h2f
  · show d5.state = _
    rw [hcoreF.2.1]
    exact hstate4

open Detex in
/-- Witness for C3: `\footnote{ab}` followed by `x` yields `(ab)` and
leaves `x` to scan. -/
theorem c3_footnoteParens_witness :
    ∃ m d', steps (fun _ => none) m
        (Detex.init defaultOptions "f" "\\footnote\x7bab\x7dx") = .ok d' ∧
      d'.output = (Detex.init defaultOptions "f" "\\footnote\x7bab\x7dx").output ++
        ('(' :: ("ab".data ++ [')'])) ∧
      dstream d' = "x".data ∧ d'.state = .Normal ∧
      d'.current_braces_level =
        (Detex.init defaultOptions "f" "\\footnote\x7bab\x7dx").current_braces_level ∧
      d'.footnote_level = -100 :=
  c3_footnoteParens (fun _ => none) _ "ab".data "x".data (by decide) (by decide)
    (by decide) (by decide) (by decide)

namespace Detex

/-- An empty file stack stops the main loop at once. -/
theorem run_emptyStack (fs : String → Option String) (fuel : Nat) (d : Detex)
    (h : d.file_stack = []) : run fs fuel d = .ok d := by
  cases fuel with
  | zero => rfl
  | succ f =>
    show (if d.file_stack.isEmpty = true then Except.ok d
          else if topEof d = true then
            run fs f { d with file_stack := d.file_stack.tail }
          else do
            let x ← processNext fs d
            run fs f x) = _
    rw [h]
    simp

/-- With a single exhausted source on the stack, the main loop pops it
and stops successfully. -/
theorem runEmpty (fs : String → Option String) (d : Detex) (fuel : Nat)
    (hstack : d.file_stack.length = 1) (hst : dstream d = [])
    (hfuel : 2 ≤ fuel) :
    run fs fuel d = .ok { d with file_stack := [] } := by
  rcases fuel with _ | f
  · omega
  rcases f with _ | g
  · omega
  cases hfs : d.file_stack with
  | nil =>
    rw [hfs] at hstack
    simp at hstack
  | cons ctx t =>
    have ht : t = [] := by
      rw [hfs] at hstack
      simpa using hstack
    subst ht
    have hemp : d.file_stack.isEmpty = false := by rw [hfs]; rfl
    have hteof : topEof d = true := (topEof_iff d).mpr (Or.inr hst)
    show (if d.file_stack.isEmpty = true then Except.ok d
          else if topEof d = true then
            run fs (g + 1) { d with file_stack := d.file_stack.tail }
          else do
            let x ← processNext fs d
            run fs (g + 1) x) = _
    rw [hemp, hteof, hfs]
    simp
    exact run_emptyStack fs (g + 1) { d with file_stack := [] } rfl

/-- The main loop on a single-source document of plain prose echoes the
whole document and pops the exhausted source. -/
theorem runPlain (fs : String → Option String) :
    ∀ (n : Nat) (l : List Char) (d : Detex) (fuel : Nat),
      l.length ≤ n → d.state = .Normal → d.opts.word = false →
      d.opts.src_loc = false → d.file_stack.length = 1 →
      dstream d = l → plainProseB l = true → l.length + 2 ≤ fuel →
      ∃ d', run fs fuel d = .ok d' ∧ d'.output = d.output ++ l ∧
        d'.file_stack = [] := by
  intro n
  induction n with
  | zero =>
    intro l d fuel hlen hstate hw hsrc hstack hst hplain hfuel
    have hl : l = [] := by
      cases l with
      | nil => rfl
      | cons a t => simp at hlen
    subst hl
    exact ⟨_, runEmpty fs d fuel hstack hst (by omega), by simp, rfl⟩
  | succ n ih =>
    intro l d fuel hlen hstate hw hsrc hstack hst hplain hfuel
    cases l with
    | nil => exact ⟨_, runEmpty fs d fuel hstack hst (by omega), by simp, rfl⟩
    | cons c l' =>
      rcases fuel with _ | f
      · simp at hfuel
      obtain ⟨d1, k, hpn, hk1, hout1, hst1, hcore1⟩ :=
        stepPlain d c l' [] hw hsrc (by simpa using hst) hplain (Or.inl rfl)
      have hemp : d.file_stack.isEmpty = false := by
        cases hfs : d.file_stack with
        | nil => rw [hfs] at hstack; simp at hstack
        | cons a t => rfl
      have hteof : topEof d = false := by
        cases htv : topEof d with
        | false => rfl
        | true =>
          rcases (topEof_iff d).mp htv with h | h
          · rw [h] at hstack; simp at hstack
          · rw [hst] at h; exact absurd h (by simp)
      have hrun : run fs (f + 1) d =
          (do
            let x ← processNext fs d
            run fs f x) := by
        show (if d.file_stack.isEmpty = true then Except.ok d
              else if topEof d = true then
                run fs f { d with file_stack := d.file_stack.tail }
              else do
                let x ← processNext fs d
                run fs f x) = _
        rw [hemp, hteof]
        simp
      simp only [List.length_cons] at hlen hfuel
      obtain ⟨d', hrun2, hout2, hfs2⟩ := ih ((c :: l').drop k) d1 f
        (by simp only [List.length_drop, List.length_cons]; omega)
        (hcore1.2.1.trans hstate) (by rw [hcore1.1]; exact hw)
        (by rw [hcore1.1]; exact hsrc)
        (by rw [sameCore_stackLen hcore1]; exact hstack)
        (by simpa using hst1) (plainProseB_drop k hplain)
        (by simp only [List.length_drop, List.length_cons]; omega)
      refine ⟨d', ?_, ?_, hfs2⟩
      · rw [hrun, processNext_normal fs hstate, hpn, exceptBindOk]
        exact hrun2
      · rw [hout2, hout1]
        simp

end Detex

open Detex in
/-- C1 (amended): with the default flags, a document of plain prose -
no backslash, dollar, percent, brace, tilde, pipe or backtick, and no
two adjacent hyphens, apostrophes or commas - is written to the output
verbatim. -/
theorem c1_plainProseIdentity (fs : String → Option String) (txt : String)
    (hplain : plainProseB txt.data = true) :
    ∃ d', run fs (txt.data.length + 2) (Detex.init defaultOptions "f" txt) = .ok d' ∧
      d'.output = txt.data := by
  have hst0 : dstream (Detex.init defaultOptions "f" txt) = txt.data := by
    show CharSource.stream (CharSource.new txt) = _
    exact CharSource.stream_new txt
  obtain ⟨d', h1, h2, -⟩ := runPlain fs txt.data.length txt.data
    (Detex.init defaultOptions "f" txt) (txt.data.length + 2) (le_refl _)
    rfl rfl rfl rfl hst0 hplain (le_refl _)
  exact ⟨d', h1, by simpa using h2⟩

open Detex in
/-- Witness for C1: a plain sentence is echoed verbatim. -/
theorem c1_plainProseIdentity_witness :
    ∃ d', run (fun _ => none) ("Hello, world! 123".data.length + 2)
        (Detex.init defaultOptions "f" "Hello, world! 123") = .ok d' ∧
      d'.output = "Hello, world! 123".data :=
  c1_plainProseIdentity (fun _ => none) "Hello, world! 123" (by decide)

open Detex in
/-- C1 counterexample: `%a` has no backslash, `$`, or recognized
punctuation-substitution sequence, yet the output is empty - the `%`
opens a comment that is deleted to the end of input. -/
theorem c1_counterexample :
    ∃ d', run (fun _ => none) 4 (Detex.init defaultOptions "f" "%a") = .ok d' ∧
      d'.output ≠ "%a".data :=
  ⟨_, rfl, by decide⟩

/-! ## Stack-length accounting (claim C5): every lexer operation other
than a successful file inclusion keeps the file stack's length, and the
inclusion guard keeps it at or below `MAX_FILE_STACK`. -/

namespace Detex

@[simp] theorem sl_ungetChar (c : Char) (d : Detex) :
    (ungetChar c d).file_stack.length = d.file_stack.length := by
  unfold ungetChar
  simp

@[simp] theorem sl_bumpLine (d : Detex) :
    (bumpLine d).file_stack.length = d.file_stack.length := by
  unfold bumpLine
  simp

@[simp] theorem sl_printPfx (d : Detex) :
    (printPfx d).file_stack.length = d.file_stack.length := by
  unfold printPfx
  split <;> rfl

@[simp] theorem sl_echo (c : Char) (d : Detex) :
    (echo c d).file_stack.length = d.file_stack.length := by
  unfold echo
  simp

@[simp] theorem sl_echoStr (s : List Char) (d : Detex) :
    (echoStr s d).file_stack.length = d.file_stack.length := by
  unfold echoStr
  simp

@[simp] theorem sl_lineBreak (d : Detex) :
    (lineBreak d).file_stack.length = d.file_stack.length := by
  unfold lineBreak
  split
  · rfl
  · simp

@[simp] theorem sl_spaceOut (d : Detex) :
    (spaceOut d).file_stack.length = d.file_stack.length := by
  unfold spaceOut
  split <;> rfl

@[simp] theorem sl_nounOut (d : Detex) :
    (nounOut d).file_stack.length = d.file_stack.length := by
  unfold nounOut
  split
  · rfl
  split <;> rfl

@[simp] theorem sl_verbNounOut (d : Detex) :
    (verbNounOut d).file_stack.length = d.file_stack.length := by
  unfold verbNounOut
  split <;> rfl

@[simp] theorem sl_ignoreOut (d : Detex) :
    (ignoreOut d).file_stack.length = d.file_stack.length := by
  unfold ignoreOut
  split <;> rfl

@[simp] theorem sl_laBegin (st : LexState) (d : Detex) :
    (laBegin st d).file_stack.length = d.file_stack.length := by
  unfold laBegin
  split <;> rfl

@[simp] theorem sl_setLatex (d : Detex) :
    (setLatex d).file_stack.length = d.file_stack.length := by
  unfold setLatex
  split <;> rfl

@[simp] theorem sl_killArgs (n : Nat) (d : Detex) :
    (killArgs n d).file_stack.length = d.file_stack.length := by
  unfold killArgs
  simp

@[simp] theorem sl_stripArgs (n : Nat) (d : Detex) :
    (stripArgs n d).file_stack.length = d.file_stack.length := by
  unfold stripArgs
  simp

@[simp] theorem sl_beginEnv (env : String) (d : Detex) :
    (beginEnv env d).2.file_stack.length = d.file_stack.length := by
  unfold beginEnv
  split
  · rfl
  split <;> rfl

@[simp] theorem sl_addInclude (filename : String) (d : Detex) :
    (addInclude filename d).file_stack.length = d.file_stack.length := by
  unfold addInclude
  split <;> rfl

@[simp] theorem sl_matchOptionalStar (d : Detex) :
    (matchOptionalStar d).file_stack.length = d.file_stack.length := by
  unfold matchOptionalStar
  split <;> simp

end Detex

namespace Detex

@[simp] theorem sl_readCmdAux : ∀ (fuel : Nat) (d : Detex) (acc : String),
    (readCmdAux fuel d acc).2.file_stack.length = d.file_stack.length := by
  intro fuel
  induction fuel with
  | zero => intro d acc; rfl
  | succ f ih =>
    intro d acc
    unfold readCmdAux
    split
    · split
      · simp [ih]
      · rfl
    · rfl

@[simp] theorem sl_readCommandName (d : Detex) :
    (readCommandName d).2.file_stack.length = d.file_stack.length := by
  unfold readCommandName
  simp

@[simp] theorem sl_foldlUnget : ∀ (l : List Char) (d : Detex),
    (l.foldl (fun d c => ungetChar c d) d).file_stack.length =
      d.file_stack.length := by
  intro l
  induction l with
  | nil => intro d; rfl
  | cons a t ih => intro d; simp [List.foldl_cons, ih]

@[simp] theorem sl_ungetAll (m : List Char) (d : Detex) :
    (ungetAll m d).file_stack.length = d.file_stack.length := by
  unfold ungetAll
  exact sl_foldlUnget m.reverse d

theorem sl_of_nextChar {d d1 : Detex} {c? : Option Char}
    (heq : nextChar d = (c?, d1)) :
    d1.file_stack.length = d.file_stack.length := by
  have h2 := nextChar_snd_stackLen d
  rw [heq] at h2
  simpa using h2

@[simp] theorem sl_tryMatchAux : ∀ (pat matched : List Char) (d : Detex),
    (tryMatchAux pat matched d).2.file_stack.length = d.file_stack.length := by
  intro pat
  induction pat with
  | nil => intro matched d; rfl
  | cons e ps ih =>
    intro matched d
    unfold tryMatchAux
    split
    · rename_i c d1 heq
      have h1 := sl_of_nextChar heq
      split
      · simp [ih, h1]
      · simp [h1]
    · rename_i d1 heq
      have h1 := sl_of_nextChar heq
      simp [h1]

@[simp] theorem sl_tryMatch (pat : List Char) (d : Detex) :
    (tryMatch pat d).2.file_stack.length = d.file_stack.length := by
  unfold tryMatch
  simp

@[simp] theorem sl_skipWsAux : ∀ (fuel : Nat) (d : Detex),
    (skipWsAux fuel d).file_stack.length = d.file_stack.length := by
  intro fuel
  induction fuel with
  | zero => intro d; rfl
  | succ f ih =>
    intro d
    unfold skipWsAux
    split
    · split
      · simp only [ih]
        split <;> simp
      · rfl
    · rfl

@[simp] theorem sl_skipWhitespace (d : Detex) :
    (skipWhitespace d).file_stack.length = d.file_stack.length := by
  unfold skipWhitespace
  simp

@[simp] theorem sl_skipDigitsDotsAux : ∀ (fuel : Nat) (d : Detex),
    (skipDigitsDotsAux fuel d).file_stack.length = d.file_stack.length := by
  intro fuel
  induction fuel with
  | zero => intro d; rfl
  | succ f ih =>
    intro d
    unfold skipDigitsDotsAux
    split
    · split
      · simp [ih]
      · rfl
    · rfl

@[simp] theorem sl_skipGlueDim (d : Detex) :
    (skipGlueDim d).file_stack.length = d.file_stack.length := by
  unfold skipGlueDim
  simp only [sl_skipWhitespace, sl_readCommandName, sl_skipDigitsDotsAux]
  split
  · split <;> simp
  · rfl

@[simp] theorem sl_skipGlueLoopAux : ∀ (fuel : Nat) (d : Detex),
    (skipGlueLoopAux fuel d).file_stack.length = d.file_stack.length := by
  intro fuel
  induction fuel with
  | zero => intro d; rfl
  | succ f ih =>
    intro d
    unfold skipGlueLoopAux
    split
    rename_i mp d1 heq
    have h1 : d1.file_stack.length = d.file_stack.length := by
      have h2 := sl_tryMatch "plus".data d
      rw [heq] at h2
      simpa using h2
    split
    · simp [ih, h1]
    · split
      rename_i mm d2 heq2
      have h2 : d2.file_stack.length = d1.file_stack.length := by
        have h3 := sl_tryMatch "minus".data d1
        rw [heq2] at h3
        simpa using h3
      split
      · simp [ih, h1, h2]
      · simp [h1, h2]

@[simp] theorem sl_skipGlue (d : Detex) :
    (skipGlue d).file_stack.length = d.file_stack.length := by
  unfold skipGlue
  simp

@[simp] theorem sl_braceLoopAux : ∀ (fuel depth : Nat) (d : Detex),
    (braceLoopAux fuel depth d).file_stack.length = d.file_stack.length := by
  intro fuel
  induction fuel with
  | zero => intro depth d; rfl
  | succ f ih =>
    intro depth d
    unfold braceLoopAux
    split
    · rfl
    split
    · rename_i c d1 heq
      have h1 := sl_of_nextChar heq
      split
      · simp [ih, h1]
      split
      · simp [ih, h1]
      split
      · split
        · rename_i ch d2 heq2
          have h2 := sl_of_nextChar heq2
          simp only [ih]
          split <;> simp [h1, h2]
        · rename_i d2 heq2
          have h2 := sl_of_nextChar heq2
          simp [ih, h1, h2]
      split
      · simp [ih, h1]
      · simp [ih, h1]
    · rename_i d1 heq
      have h1 := sl_of_nextChar heq
      simp [h1]

@[simp] theorem sl_skipBraceArg (d : Detex) :
    (skipBraceArg d).file_stack.length = d.file_stack.length := by
  rcases heq : tryMatch ['{'] (skipWhitespace d) with ⟨m, d1⟩
  have h1 : d1.file_stack.length = d.file_stack.length := by
    have h2 := sl_tryMatch ['{'] (skipWhitespace d)
    rw [heq] at h2
    simpa using h2
  show (match tryMatch ['{'] (skipWhitespace d) with
        | (m, d) =>
          if m = true then braceLoopAux (dRem d) 1 d else d).file_stack.length =
      d.file_stack.length
  rw [heq]
  show (if m = true then braceLoopAux (dRem d1) 1 d1 else d1).file_stack.length =
      d.file_stack.length
  split <;> simp [h1]

@[simp] theorem sl_bracketLoopAux : ∀ (fuel depth : Nat) (d : Detex),
    (bracketLoopAux fuel depth d).file_stack.length = d.file_stack.length := by
  intro fuel
  induction fuel with
  | zero => intro depth d; rfl
  | succ f ih =>
    intro depth d
    unfold bracketLoopAux
    split
    · rfl
    split
    · rename_i c d1 heq
      have h1 := sl_of_nextChar heq
      split
      · simp [ih, h1]
      split
      · simp [ih, h1]
      split
      · split
        · rename_i ch d2 heq2
          have h2 := sl_of_nextChar heq2
          simp only [ih]
          split <;> simp [h1, h2]
        · rename_i d2 heq2
          have h2 := sl_of_nextChar heq2
          simp [ih, h1, h2]
      split
      · simp [ih, h1]
      · simp [ih, h1]
    · rename_i d1 heq
      have h1 := sl_of_nextChar heq
      simp [h1]

@[simp] theorem sl_skipOptBracketArg (d : Detex) :
    (skipOptBracketArg d).file_stack.length = d.file_stack.length := by
  unfold skipOptBracketArg
  split <;> simp

end Detex

namespace Detex

@[simp] theorem sl_commentAux : ∀ (fuel : Nat) (d : Detex),
    (commentAux fuel d).file_stack.length = d.file_stack.length := by
  intro fuel
  induction fuel with
  | zero => intro d; rfl
  | succ f ih =>
    intro d
    unfold commentAux
    split
    · rename_i c d1 heq
      have h1 := sl_of_nextChar heq
      split
      · simp [h1]
      · simp [ih, h1]
    · rename_i d1 heq
      have h1 := sl_of_nextChar heq
      simp [h1]

@[simp] theorem sl_dashAux : ∀ (fuel dashes : Nat) (d : Detex),
    (dashAux fuel dashes d).file_stack.length = d.file_stack.length := by
  intro fuel
  induction fuel with
  | zero => intro dashes d; rfl
  | succ f ih =>
    intro dashes d
    unfold dashAux
    split
    · simp [ih]
    · rfl

@[simp] theorem sl_wordAux : ∀ (fuel : Nat) (d : Detex) (acc : List Char),
    (wordAux fuel d acc).2.file_stack.length = d.file_stack.length := by
  intro fuel
  induction fuel with
  | zero => intro d acc; rfl
  | succ f ih =>
    intro d acc
    unfold wordAux
    split
    · split
      · simp [ih]
      · split
        · show (match peekChar (nextChar d).2 with
                | some nx =>
                  if rustIsAsciiAlpha nx = true then
                    wordAux f (nextChar d).2 (acc ++ ['\''])
                  else (acc, ungetChar '\'' (nextChar d).2)
                | none =>
                  (acc, ungetChar '\'' (nextChar d).2)).2.file_stack.length =
              d.file_stack.length
          split
          · split
            · simp [ih]
            · simp
          · simp
        · rfl
    · rfl

@[simp] theorem sl_numAux : ∀ (fuel : Nat) (d : Detex) (acc : List Char),
    (numAux fuel d acc).2.file_stack.length = d.file_stack.length := by
  intro fuel
  induction fuel with
  | zero => intro d acc; rfl
  | succ f ih =>
    intro d acc
    unfold numAux
    split
    · split
      · simp [ih]
      · rfl
    · rfl

@[simp] theorem sl_numRunAux : ∀ (fuel : Nat) (d : Detex) (acc : List Char),
    (numRunAux fuel d acc).2.file_stack.length = d.file_stack.length := by
  intro fuel
  induction fuel with
  | zero => intro d acc; rfl
  | succ f ih =>
    intro d acc
    unfold numRunAux
    split
    · split
      · simp [ih]
      · rfl
    · rfl

@[simp] theorem sl_nlLoopAux : ∀ (fuel : Nat) (d : Detex),
    (nlLoopAux fuel d).file_stack.length = d.file_stack.length := by
  intro fuel
  induction fuel with
  | zero => intro d; rfl
  | succ f ih =>
    intro d
    unfold nlLoopAux
    split
    · simp [ih]
    · rfl

@[simp] theorem sl_optBracketLoopAux : ∀ (fuel : Nat) (d : Detex),
    (optBracketLoopAux fuel d).file_stack.length = d.file_stack.length := by
  intro fuel
  induction fuel with
  | zero => intro d; rfl
  | succ f ih =>
    intro d
    unfold optBracketLoopAux
    split
    · simp [ih]
    · rfl

@[simp] theorem sl_incOnlyNameAux : ∀ (fuel : Nat) (d : Detex) (acc : List Char),
    (incOnlyNameAux fuel d acc).2.file_stack.length = d.file_stack.length := by
  intro fuel
  induction fuel with
  | zero => intro d acc; rfl
  | succ f ih =>
    intro d acc
    unfold incOnlyNameAux
    split
    · split
      · rfl
      · simp [ih]
    · rfl

@[simp] theorem sl_inputNameAux : ∀ (fuel : Nat) (d : Detex) (acc : List Char),
    (inputNameAux fuel d acc).2.file_stack.length = d.file_stack.length := by
  intro fuel
  induction fuel with
  | zero => intro d acc; rfl
  | succ f ih =>
    intro d acc
    unfold inputNameAux
    split
    · split
      · rfl
      · simp [ih]
    · rfl

@[simp] theorem sl_pictureNameAux : ∀ (fuel : Nat) (d : Detex) (acc : List Char),
    (pictureNameAux fuel d acc).2.file_stack.length = d.file_stack.length := by
  intro fuel
  induction fuel with
  | zero => intro d acc; rfl
  | succ f ih =>
    intro d acc
    unfold pictureNameAux
    split
    · split
      · rfl
      · simp [ih]
    · rfl

@[simp] theorem sl_pictureWsAux : ∀ (fuel : Nat) (d : Detex),
    (pictureWsAux fuel d).file_stack.length = d.file_stack.length := by
  intro fuel
  induction fuel with
  | zero => intro d; rfl
  | succ f ih =>
    intro d
    unfold pictureWsAux
    split
    · split
      · split
        · simp
        · simp [ih]
      · rfl
    · rfl

theorem sl_verbLoopAux : ∀ (fuel : Nat) (delim : Char) (d d' : Detex),
    verbLoopAux fuel delim d = .ok d' →
    d'.file_stack.length = d.file_stack.length := by
  intro fuel
  induction fuel with
  | zero =>
    intro delim d d' h
    cases h
    rfl
  | succ f ih =>
    intro delim d d' h
    unfold verbLoopAux at h
    split at h
    · rename_i c d1 heq
      have h1 := sl_of_nextChar heq
      split at h
      · cases h
        exact h1
      split at h
      · cases h
      · have h2 := ih delim _ d' h
        simp at h2
        rw [h2, h1]
    · rename_i d1 heq
      have h1 := sl_of_nextChar heq
      cases h
      exact h1

@[simp] theorem sl_checkVerbSymbol (c : Char) (d : Detex) :
    (checkVerbSymbol c d).file_stack.length = d.file_stack.length := by
  unfold checkVerbSymbol
  split
  · simp
  split
  · split
    rename_i cmd d1 heq
    have h1 : d1.file_stack.length = d.file_stack.length := by
      have h2 := sl_readCommandName d
      rw [heq] at h2
      simpa using h2
    split
    · simp [h1]
    · exact h1
  · rfl

end Detex

namespace Detex

set_option maxHeartbeats 3200000 in
theorem sl_processBackslash : ∀ {d d' : Detex}, processBackslash d = .ok d' →
    d'.file_stack.length = d.file_stack.length := by
  intro d d' h
  unfold processBackslash at h
  split at h
  rename_i cmd d1 heq
  have h1 : d1.file_stack.length = d.file_stack.length := by
    have h2 := sl_readCommandName d
    rw [heq] at h2
    simpa using h2
  split at h
  all_goals try (cases h; first
    | (simp [h1]; done)
    | (split <;> simp [h1]))
  case h_68 =>
    split at h
    · split at h
      · rename_i delim d2 heq2
        have h2 := sl_of_nextChar heq2
        split at h
        · cases h
        · have h3 := sl_verbLoopAux _ _ _ _ h
          rw [h3, h2]
          exact h1
      · rename_i d2 heq2
        have h2 := sl_of_nextChar heq2
        cases h
        exact h2.trans h1
    · cases h
      exact h1
  case h_1 =>
    split at h
    · rename_i c d2 heq2
      have h2 := sl_of_nextChar heq2
      repeat' split at h
      all_goals (cases h; simp [h1, h2])
    · rename_i d2 heq2
      have h2 := sl_of_nextChar heq2
      cases h
      simp [h1, h2]
  all_goals try (
    simp only [] at h
    repeat' split at h
    all_goals (cases h; simp [h1]))
  all_goals (
    try cases h
    try simp only []
    repeat' split
    all_goals try simp [h1])

theorem bindOkInv {X : Except String Detex} {f : Detex → Except String Detex}
    {d' : Detex} (h : Except.bind X f = .ok d') :
    ∃ dx, X = .ok dx ∧ f dx = .ok d' := by
  cases X with
  | error e => cases h
  | ok dx => exact ⟨dx, rfl, h⟩

theorem sl_inputFile (fs : String → Option String) (nm : String) {d d' : Detex}
    (hle : d.file_stack.length ≤ MAX_FILE_STACK)
    (h : inputFile fs nm d = .ok d') :
    d'.file_stack.length ≤ MAX_FILE_STACK := by
  unfold inputFile at h
  split at h
  · cases h
    exact hle
  split at h
  · cases h
    simpa using hle
  · rename_i hguard
    split at h
    · cases h
      simp
      omega
    · cases h
      simpa using hle

theorem sl_includeFile (fs : String → Option String) (nm : String) {d d' : Detex}
    (hle : d.file_stack.length ≤ MAX_FILE_STACK)
    (h : includeFile fs nm d = .ok d') :
    d'.file_stack.length ≤ MAX_FILE_STACK := by
  unfold includeFile at h
  split at h
  · cases h
    exact hle
  split at h
  · cases h
    exact hle
  · exact sl_inputFile fs nm hle h

theorem sl_processDefine : ∀ {d d' : Detex}, processDefine d = .ok d' →
    d'.file_stack.length = d.file_stack.length := by
  intro d d' h
  unfold processDefine at h
  split at h
  · rename_i c d1 heq
    have h1 := sl_of_nextChar heq
    try simp only [] at h
    repeat' split at h
    all_goals try (cases h; simp [h1])
  · rename_i d1 heq
    have h1 := sl_of_nextChar heq
    cases h
    simp [h1]

theorem sl_processDisplay : ∀ {d d' : Detex}, processDisplay d = .ok d' →
    d'.file_stack.length = d.file_stack.length := by
  intro d d' h
  unfold processDisplay at h
  split at h
  · rename_i c d1 heq
    have h1 := sl_of_nextChar heq
    try simp only [] at h
    repeat' split at h
    all_goals try (cases h; simp [h1])
  · rename_i d1 heq
    have h1 := sl_of_nextChar heq
    cases h
    simp [h1]

theorem sl_processMath : ∀ {d d' : Detex}, processMath d = .ok d' →
    d'.file_stack.length = d.file_stack.length := by
  intro d d' h
  unfold processMath at h
  split at h
  · rename_i c d1 heq
    have h1 := sl_of_nextChar heq
    try simp only [] at h
    repeat' split at h
    all_goals try (cases h; simp [h1])
  · rename_i d1 heq
    have h1 := sl_of_nextChar heq
    cases h
    simp [h1]

theorem sl_processControl : ∀ {d d' : Detex}, processControl d = .ok d' →
    d'.file_stack.length = d.file_stack.length := by
  intro d d' h
  unfold processControl at h
  split at h
  · rename_i c d1 heq
    have h1 := sl_of_nextChar heq
    try simp only [] at h
    repeat' split at h
    all_goals try (cases h; simp [h1])
  · rename_i d1 heq
    have h1 := sl_of_nextChar heq
    cases h
    simp [h1]

theorem sl_processIncludeOnly : ∀ {d d' : Detex}, processIncludeOnly d = .ok d' →
    d'.file_stack.length = d.file_stack.length := by
  intro d d' h
  unfold processIncludeOnly at h
  try simp only [] at h
  repeat' split at h
  all_goals try (cases h; simp)

theorem sl_processLaEnv : ∀ {d d' : Detex}, processLaEnv d = .ok d' →
    d'.file_stack.length = d.file_stack.length := by
  intro d d' h
  unfold processLaEnv at h
  try simp only [] at h
  repeat' split at h
  all_goals try (cases h; simp)

theorem sl_processLaEnd : ∀ {d d' : Detex}, processLaEnd d = .ok d' →
    d'.file_stack.length = d.file_stack.length := by
  intro d d' h
  unfold processLaEnd at h
  try simp only [] at h
  repeat' split at h
  all_goals try (cases h; simp)

theorem sl_processLaDisplay : ∀ {d d' : Detex}, processLaDisplay d = .ok d' →
    d'.file_stack.length = d.file_stack.length := by
  intro d d' h
  unfold processLaDisplay at h
  split at h
  · rename_i c d1 heq
    have h1 := sl_of_nextChar heq
    try simp only [] at h
    repeat' split at h
    all_goals try (cases h; simp [h1])
  · rename_i d1 heq
    have h1 := sl_of_nextChar heq
    cases h
    simp [h1]

theorem sl_processLaFormula : ∀ {d d' : Detex}, processLaFormula d = .ok d' →
    d'.file_stack.length = d.file_stack.length := by
  intro d d' h
  unfold processLaFormula at h
  split at h
  · rename_i c d1 heq
    have h1 := sl_of_nextChar heq
    try simp only [] at h
    repeat' split at h
    all_goals try (cases h; simp [h1])
  · rename_i d1 heq
    have h1 := sl_of_nextChar heq
    cases h
    simp [h1]

theorem sl_processLaKill : ∀ {d d' : Detex}, processLaKill d = .ok d' →
    d'.file_stack.length = d.file_stack.length := by
  intro d d' h
  unfold processLaKill at h
  split at h
  · rename_i c d1 heq
    have h1 := sl_of_nextChar heq
    try simp only [] at h
    repeat' split at h
    all_goals try (cases h; simp [h1])
  · rename_i d1 heq
    have h1 := sl_of_nextChar heq
    cases h
    simp [h1]

theorem sl_processLaKillOpt : ∀ {d d' : Detex}, processLaKillOpt d = .ok d' →
    d'.file_stack.length = d.file_stack.length := by
  intro d d' h
  unfold processLaKillOpt at h
  split at h
  · rename_i c d1 heq
    have h1 := sl_of_nextChar heq
    try simp only [] at h
    repeat' split at h
    all_goals try (cases h; simp [h1])
  · rename_i d1 heq
    have h1 := sl_of_nextChar heq
    cases h
    simp [h1]

theorem sl_processLaStrip : ∀ {d d' : Detex}, processLaStrip d = .ok d' →
    d'.file_stack.length = d.file_stack.length := by
  intro d d' h
  unfold processLaStrip at h
  split at h
  · rename_i c d1 heq
    have h1 := sl_of_nextChar heq
    try simp only [] at h
    repeat' split at h
    all_goals try (cases h; simp [h1])
  · rename_i d1 heq
    have h1 := sl_of_nextChar heq
    cases h
    simp [h1]

theorem sl_processLaStripOpt : ∀ {d d' : Detex}, processLaStripOpt d = .ok d' →
    d'.file_stack.length = d.file_stack.length := by
  intro d d' h
  unfold processLaStripOpt at h
  split at h
  · rename_i c d1 heq
    have h1 := sl_of_nextChar heq
    try simp only [] at h
    repeat' split at h
    all_goals try (cases h; simp [h1])
  · rename_i d1 heq
    have h1 := sl_of_nextChar heq
    cases h
    simp [h1]

theorem sl_processLaVerbatim : ∀ {d d' : Detex}, processLaVerbatim d = .ok d' →
    d'.file_stack.length = d.file_stack.length := by
  intro d d' h
  unfold processLaVerbatim at h
  split at h
  · rename_i c d1 heq
    have h1 := sl_of_nextChar heq
    try simp only [] at h
    repeat' split at h
    all_goals try (cases h; simp [h1])
  · rename_i d1 heq
    have h1 := sl_of_nextChar heq
    cases h
    simp [h1]

theorem sl_processLaPicture : ∀ {d d' : Detex}, processLaPicture d = .ok d' →
    d'.file_stack.length = d.file_stack.length := by
  intro d d' h
  unfold processLaPicture at h
  split at h
  · rename_i c d1 heq
    have h1 := sl_of_nextChar heq
    try simp only [] at h
    repeat' split at h
    all_goals try (cases h; simp [h1])
  · rename_i d1 heq
    have h1 := sl_of_nextChar heq
    cases h
    simp [h1]

set_option maxHeartbeats 1600000 in
theorem sl_processNormal : ∀ {d d' : Detex}, processNormal d = .ok d' →
    d'.file_stack.length = d.file_stack.length := by
  intro d d' h
  unfold processNormal at h
  split at h
  · rename_i d1 heq
    cases h
    exact sl_of_nextChar heq
  · rename_i c d1 heq
    have h1 := sl_of_nextChar heq
    by_cases hc1 : c = '%'
    · rw [if_pos hc1] at h
      cases h
      simp [h1]
    rw [if_neg hc1] at h
    by_cases hc2 : c = '\\'
    · rw [if_pos hc2] at h
      exact (sl_processBackslash h).trans h1
    rw [if_neg hc2] at h
    by_cases hc3 : c = '$'
    · rw [if_pos hc3] at h
      split at h <;> (cases h; simp [h1])
    rw [if_neg hc3] at h
    by_cases hc4 : c = '{'
    · rw [if_pos hc4] at h
      try simp only [] at h
      repeat' split at h
      all_goals try (cases h; simp [h1])
    rw [if_neg hc4] at h
    by_cases hc5 : c = '}'
    · rw [if_pos hc5] at h
      try simp only [] at h
      repeat' split at h
      all_goals try (cases h; simp [h1])
    rw [if_neg hc5] at h
    by_cases hc6 : c = '~'
    · rw [if_pos hc6] at h
      try simp only [] at h
      repeat' split at h
      all_goals try (cases h; simp [h1])
      all_goals try (repeat' split
                     all_goals simp [h1])
    rw [if_neg hc6] at h
    by_cases hc7 : c = '|'
    · rw [if_pos hc7] at h
      try simp only [] at h
      repeat' split at h
      all_goals try (cases h; simp [h1])
      all_goals try (repeat' split
                     all_goals simp [h1])
    rw [if_neg hc7] at h
    by_cases hc8 : (decide (c = '!') || decide (c = '?')) = true
    · rw [if_pos hc8] at h
      try simp only [] at h
      repeat' split at h
      all_goals try (cases h; simp [h1])
      all_goals try (repeat' split
                     all_goals simp [h1])
    rw [if_neg hc8] at h
    by_cases hc9 : c = '-'
    · rw [if_pos hc9] at h
      try simp only [] at h
      repeat' split at h
      all_goals try (cases h; simp [h1])
      all_goals try (repeat' split
                     all_goals simp [h1])
    rw [if_neg hc9] at h
    by_cases hc10 : c = '`'
    · rw [if_pos hc10] at h
      try simp only [] at h
      repeat' split at h
      all_goals try (cases h; simp [h1])
      all_goals try (repeat' split
                     all_goals simp [h1])
    rw [if_neg hc10] at h
    by_cases hc11 : c = '\''
    · rw [if_pos hc11] at h
      try simp only [] at h
      repeat' split at h
      all_goals try (cases h; simp [h1])
      all_goals try (repeat' split
                     all_goals simp [h1])
    rw [if_neg hc11] at h
    by_cases hc12 : c = ','
    · rw [if_pos hc12] at h
      try simp only [] at h
      repeat' split at h
      all_goals try (cases h; simp [h1])
      all_goals try (repeat' split
                     all_goals simp [h1])
    rw [if_neg hc12] at h
    by_cases hc13 : c = '\n'
    · rw [if_pos hc13] at h
      try simp only [] at h
      repeat' split at h
      all_goals try (cases h; simp [h1])
      all_goals try (repeat' split
                     all_goals simp [h1])
    rw [if_neg hc13] at h
    by_cases hc14 : c = '\t'
    · rw [if_pos hc14] at h
      try simp only [] at h
      repeat' split at h
      all_goals try (cases h; simp [h1])
      all_goals try (repeat' split
                     all_goals simp [h1])
    rw [if_neg hc14] at h
    by_cases hc15 : rustIsAsciiAlpha c = true
    · rw [if_pos hc15] at h
      try simp only [] at h
      repeat' split at h
      all_goals try (cases h; simp [h1])
      all_goals try (repeat' split
                     all_goals simp [h1])
    rw [if_neg hc15] at h
    by_cases hc16 : rustIsAsciiDigit c = true
    · rw [if_pos hc16] at h
      try simp only [] at h
      repeat' split at h
      all_goals try (cases h; simp [h1])
      all_goals try (repeat' split
                     all_goals simp [h1])
    rw [if_neg hc16] at h
    try simp only [] at h
    repeat' split at h
    all_goals try (cases h; simp [h1])
    all_goals try (repeat' split
                   all_goals simp [h1])

theorem sl_processInput (fs : String → Option String) : ∀ {d d' : Detex},
    d.file_stack.length ≤ MAX_FILE_STACK → processInput fs d = .ok d' →
    d'.file_stack.length ≤ MAX_FILE_STACK := by
  intro d d' hle h
  unfold processInput at h
  try simp only [] at h
  repeat' split at h
  all_goals try (cases h; simpa using hle)
  all_goals (
    obtain ⟨dx, hin, hok⟩ := bindOkInv h
    have hdx := sl_inputFile _ _ (by simpa using hle) hin
    cases hok
    simpa using hdx)

theorem sl_processLaInclude (fs : String → Option String) : ∀ {d d' : Detex},
    d.file_stack.length ≤ MAX_FILE_STACK → processLaInclude fs d = .ok d' →
    d'.file_stack.length ≤ MAX_FILE_STACK := by
  intro d d' hle h
  unfold processLaInclude at h
  try simp only [] at h
  repeat' split at h
  all_goals try (cases h; simpa using hle)
  all_goals (
    obtain ⟨dx, hin, hok⟩ := bindOkInv h
    have hdx := sl_includeFile _ _ (by simpa using hle) hin
    cases hok
    simpa using hdx)

theorem sl_processNext (fs : String → Option String) {d d' : Detex}
    (hle : d.file_stack.length ≤ MAX_FILE_STACK)
    (h : processNext fs d = .ok d') :
    d'.file_stack.length ≤ MAX_FILE_STACK := by
  unfold processNext at h
  split at h
  · exact (sl_processNormal h).trans_le hle
  · exact (sl_processDefine h).trans_le hle
  · exact (sl_processDisplay h).trans_le hle
  · exact (sl_processIncludeOnly h).trans_le hle
  · exact sl_processInput fs hle h
  · exact (sl_processMath h).trans_le hle
  · exact (sl_processControl h).trans_le hle
  · exact (sl_processLaDisplay h).trans_le hle
  · exact (sl_processLaEnd h).trans_le hle
  · exact (sl_processLaEnv h).trans_le hle
  · exact (sl_processLaFormula h).trans_le hle
  · exact sl_processLaInclude fs hle h
  · exact (sl_processLaKill h).trans_le hle
  · exact (sl_processLaKillOpt h).trans_le hle
  · exact (sl_processLaStrip h).trans_le hle
  · exact (sl_processLaStripOpt h).trans_le hle
  · exact (sl_processLaVerbatim h).trans_le hle
  · exact (sl_processLaPicture h).trans_le hle

theorem sl_run (fs : String → Option String) : ∀ (fuel : Nat) {d d' : Detex},
    d.file_stack.length ≤ MAX_FILE_STACK → run fs fuel d = .ok d' →
    d'.file_stack.length ≤ MAX_FILE_STACK := by
  intro fuel
  induction fuel with
  | zero =>
    intro d d' hle h
    cases h
    exact hle
  | succ f ih =>
    intro d d' hle h
    unfold run at h
    split at h
    · cases h
      exact hle
    split at h
    · refine ih ?_ h
      simp only [List.length_tail]
      omega
    · obtain ⟨dx, hpn, hrest⟩ := bindOkInv h
      exact ih (sl_processNext fs hle hpn) hrest

end Detex

open Detex in
/-- C5: every state reachable by the processing loop keeps the file
stack at or below `MAX_FILE_STACK` (256) sources, and an inclusion
directive arriving at maximal depth is refused: a warning diagnostic is
appended, nothing is pushed, no error is returned, and everything else
(stack, state, output) is left unchanged. -/
theorem c5_stackBound (fs : String → Option String) :
    (∀ (fuel : Nat) (d d' : Detex), d.file_stack.length ≤ MAX_FILE_STACK →
      run fs fuel d = .ok d' → d'.file_stack.length ≤ MAX_FILE_STACK) ∧
    (∀ (filename : String) (d : Detex), d.opts.no_follow = false →
      MAX_FILE_STACK ≤ d.file_stack.length →
      inputFile fs filename d = .ok
        { d with
          warnings := d.warnings ++
            ["detex: warning: file stack overflow, ignoring " ++ filename] }) := by
  constructor
  · intro fuel d d' hle h
    exact sl_run fs fuel hle h
  · intro filename d hnf hfull
    unfold inputFile
    rw [if_neg (by simp [hnf]), if_pos hfull]

open Detex in
/-- Witness for C5: a two-character run stays within the bound, and a
stack of exactly 256 sources refuses one more `\input`. -/
theorem c5_stackBound_witness :
    (∃ d', run (fun _ => none) 4 (Detex.init defaultOptions "f" "ab") = .ok d' ∧
      d'.file_stack.length ≤ MAX_FILE_STACK) ∧
    inputFile (fun _ => none) "g"
      { Detex.init defaultOptions "f" "x" with
        file_stack := List.replicate MAX_FILE_STACK
          { source := CharSource.new "x", name := "f" } } = .ok
      { { Detex.init defaultOptions "f" "x" with
          file_stack := List.replicate MAX_FILE_STACK
            { source := CharSource.new "x", name := "f" } } with
        warnings := ({ Detex.init defaultOptions "f" "x" with
          file_stack := List.replicate MAX_FILE_STACK
            { source := CharSource.new "x", name := "f" } }).warnings ++
          ["detex: warning: file stack overflow, ignoring " ++ "g"] } := by
  constructor
  · exact ⟨_, rfl, (c5_stackBound (fun _ => none)).1 4
      (Detex.init defaultOptions "f" "ab") _ (by decide) rfl⟩
  · exact (c5_stackBound (fun _ => none)).2 "g" _ rfl (by simp)
